import Mathlib

/-!
# COM12999 NeoPixel driver: pixel buffer and serial emitter

A shallow embedding of `Code/COM12999_NeoPixel.cpp`.

Machine integers are natural numbers with explicit reductions: `uint8_t` values
are kept modulo 256, `uint16_t` values modulo 65536 and `uint32_t` values modulo
4294967296.  The target is an AVR microcontroller (the emitter is AVR assembly),
so `int` and `unsigned int` are 16 bits wide.

The pixel buffer is a heap pointer that may be null: it is modelled as an
`Option (List Nat)`, and every C-level access through it is checked, so that a
null dereference or an access outside the allocated block is an explicit fault.
-/

namespace NeoPixel

/-! ## Memory model -/

/-- Faults of a C-level access through the `pixels` pointer. -/
inductive Fault where
  | nullDeref
  | outOfBounds
  deriving DecidableEq, Repr

instance instDecidableEqExcept {ε α : Type} [DecidableEq ε] [DecidableEq α] :
    DecidableEq (Except ε α)
  | .ok a, .ok b => if h : a = b then isTrue (by rw [h]) else isFalse (by intro e; cases e; exact h rfl)
  | .error a, .error b =>
    if h : a = b then isTrue (by rw [h]) else isFalse (by intro e; cases e; exact h rfl)
  | .ok _, .error _ => isFalse (by intro e; cases e)
  | .error _, .ok _ => isFalse (by intro e; cases e)

/-- Read of `pixels[i]`. -/
def load (pixels : Option (List Nat)) (i : Nat) : Except Fault Nat :=
  match pixels with
  | none => .error .nullDeref
  | some buf =>
    match buf[i]? with
    | some v => .ok v
    | none => .error .outOfBounds

/-- Write `pixels[i] = v`. -/
def store (pixels : Option (List Nat)) (i v : Nat) : Except Fault (Option (List Nat)) :=
  match pixels with
  | none => .error .nullDeref
  | some buf => if i < buf.length then .ok (some (buf.set i v)) else .error .outOfBounds

/-! ## Driver object -/

/-- Data members of `COM12999_NeoPixel` (the class declaration lives in the
header; the members and their widths are the ones the member functions use:
`numLEDs`, `numBytes` 16 bits, `brightness` 8 bits, `endTime` 32 bits). -/
structure Driver where
  numLEDs : Nat
  numBytes : Nat
  pin : Nat
  pixels : Option (List Nat)
  type : Nat
  brightness : Nat
  rOffset : Nat
  gOffset : Nat
  bOffset : Nat
  endTime : Nat
  pinMask : Nat
  deriving DecidableEq, Repr

/-- Constructor `COM12999_NeoPixel(n, p, t)`.

* `NEO_GRB`, `NEO_BRG` are the header's colour-order flag constants (header not
  part of the sources, hence parameters);
* `allocOk` says whether `malloc(numBytes)` returned a block;
* `brightness0`, `endTime0` are the prior contents of the two members the
  initialiser list does not set (zero for an object in static storage);
* `mask` is `digitalPinToBitMask(p)`.

`numBytes(n * 3)` is computed in 16-bit unsigned arithmetic. -/
def construct (NEO_GRB NEO_BRG : Nat) (allocOk : Bool) (brightness0 endTime0 mask : Nat)
    (n p t : Nat) : Driver :=
  let n := n % 65536
  let p := p % 256
  let t := t % 256
  let numBytes := (n * 3) % 65536
  let pixels := if allocOk then some (List.replicate numBytes 0) else none
  let offs : Nat × Nat × Nat :=
    if t &&& NEO_GRB ≠ 0 then (1, 0, 2)
    else if t &&& NEO_BRG ≠ 0 then (1, 2, 0)
    else (0, 1, 2)
  { numLEDs := n, numBytes := numBytes, pin := p, pixels := pixels, type := t,
    brightness := brightness0 % 256,
    rOffset := offs.1, gOffset := offs.2.1, bOffset := offs.2.2,
    endTime := endTime0 % 4294967296, pinMask := mask % 256 }

/-- Brightness scaling of one channel, `(c * brightness) >> 8` stored to a
`uint8_t`: the 16-bit product, its high byte. -/
def scale8 (c brightness : Nat) : Nat :=
  (((c * brightness) % 65536) >>> 8) % 256

/-- The three stores `p[rOffset] = r; p[gOffset] = g; p[bOffset] = b` with
`p = &pixels[n * 3]` (index computed in 16-bit unsigned arithmetic). -/
def storePixel (s : Driver) (n r g b : Nat) : Except Fault Driver := do
  let p := (n * 3) % 65536
  let m1 ← store s.pixels (p + s.rOffset) r
  let m2 ← store m1 (p + s.gOffset) g
  let m3 ← store m2 (p + s.bOffset) b
  pure { s with pixels := m3 }

/-- Overload `setPixelColor(uint16_t n, uint8_t r, uint8_t g, uint8_t b)`. -/
def setPixelColor (s : Driver) (n r g b : Nat) : Except Fault Driver :=
  let n := n % 65536
  let r := r % 256
  let g := g % 256
  let b := b % 256
  if n < s.numLEDs then
    if s.brightness ≠ 0 then
      storePixel s n (scale8 r s.brightness) (scale8 g s.brightness) (scale8 b s.brightness)
    else
      storePixel s n r g b
  else
    .ok s

/-- Overload `setPixelColor(uint16_t n, uint32_t c)`. -/
def setPixelColor32 (s : Driver) (n c : Nat) : Except Fault Driver :=
  let n := n % 65536
  let c := c % 4294967296
  if n < s.numLEDs then
    let r := (c >>> 16) % 256
    let g := (c >>> 8) % 256
    let b := c % 256
    if s.brightness ≠ 0 then
      storePixel s n (scale8 r s.brightness) (scale8 g s.brightness) (scale8 b s.brightness)
    else
      storePixel s n r g b
  else
    .ok s

/-- Packing `Color(uint8_t r, uint8_t g, uint8_t b)`. -/
def Color (r g b : Nat) : Nat :=
  (((r % 256) <<< 16) ||| ((g % 256) <<< 8) ||| (b % 256)) % 4294967296

/-- Query `getPixelColor(uint16_t n)`. -/
def getPixelColor (s : Driver) (n : Nat) : Except Fault Nat :=
  let n := n % 65536
  if n < s.numLEDs then do
    let p := (n * 3) % 65536
    let r ← load s.pixels (p + s.rOffset)
    let g ← load s.pixels (p + s.gOffset)
    let b ← load s.pixels (p + s.bOffset)
    pure (((r <<< 16) ||| (g <<< 8) ||| b) % 4294967296)
  else
    .ok 0

/-- Loop `for(i = 0; i < numBytes; i++) { c = *ptr; *ptr++ = (c * scale) >> 8; }`,
with `k` iterations left and `ptr = pixels + i`.  The product is a 16-bit
unsigned one, its high byte is stored. -/
def rescaleLoop (scale : Nat) : Nat → Nat → Option (List Nat) → Except Fault (Option (List Nat))
  | 0, _, m => .ok m
  | k + 1, i, m => do
    let c ← load m i
    let m1 ← store m i ((((c * scale) % 65536) >>> 8) % 256)
    rescaleLoop scale k (i + 1) m1

/-- The `scale` computed by `setBrightness` from the argument `b`, the new stored
value `newBrightness` and the de-wrapped old value `oldBrightness`. -/
def brightnessScale (b newBrightness oldBrightness : Nat) : Nat :=
  if oldBrightness = 0 then 0
  else if b = 255 then (65535 / oldBrightness) % 65536
  else ((((newBrightness <<< 8) % 65536) + 65535) % 65536) / oldBrightness

/-- Member `setBrightness(uint8_t b)`. -/
def setBrightness (s : Driver) (b : Nat) : Except Fault Driver :=
  let b := b % 256
  let newBrightness := (b + 1) % 256
  if newBrightness ≠ s.brightness then do
    let oldBrightness := (s.brightness + 255) % 256
    let scale := brightnessScale b newBrightness oldBrightness
    let m ← rescaleLoop scale s.numBytes 0 s.pixels
    pure { s with pixels := m, brightness := newBrightness }
  else
    .ok s

/-! ## Serial emitter -/

/-- Observable effects of `show()`: calls of `micros()` with the value returned,
`noInterrupts()`, `interrupts()`, and the `st` writes to the port register, each
stamped with the instruction clock (counted from loop entry) at which it issues. -/
inductive Event where
  | micros (t : Nat)
  | noInterrupts
  | interrupts
  | portWrite (clk : Nat) (v : Nat)
  deriving DecidableEq, Repr

/-- Registers and flags of the emitter loop: the assembly operands `byte` (b),
`bit`, `next`, `count` (i) and `ptr` (as an offset from `pixels`), the carry and
zero flags, the instruction clock and the writes issued so far. -/
structure Regs where
  byte : Nat
  bit : Nat
  next : Nat
  count : Nat
  ptr : Nat
  carry : Bool
  zero : Bool
  clk : Nat
  out : List Event
  deriving DecidableEq, Repr

/-- Instruction `st %a[port], v` (2 clocks). -/
def st (v : Nat) (r : Regs) : Regs :=
  { r with out := r.out ++ [Event.portWrite r.clk v], clk := r.clk + 2 }

/-- Pair `sbrc %[byte], 7` / `mov %[next], %[hi]`: the `mov` is skipped when bit 7
is clear (sbrc 1 clock and mov 1 clock, or sbrc 2 clocks and no mov). -/
def sbrcMov (hi : Nat) (r : Regs) : Regs :=
  if r.byte.testBit 7 then { r with next := hi, clk := r.clk + 1 + 1 }
  else { r with clk := r.clk + 2 }

/-- Instruction `dec %[bit]` (1 clock); sets the zero flag, leaves carry. -/
def dec (r : Regs) : Regs :=
  let v := (r.bit + 255) % 256
  { r with bit := v, zero := decide (v = 0), clk := r.clk + 1 }

/-- Instruction `nop` (1 clock). -/
def nop (r : Regs) : Regs := { r with clk := r.clk + 1 }

/-- Instruction `rjmp .+0` (2 clocks, no effect). -/
def rjmp0 (r : Regs) : Regs := { r with clk := r.clk + 2 }

/-- Instruction `mov %[next], %[lo]` (1 clock). -/
def movNext (lo : Nat) (r : Regs) : Regs := { r with next := lo, clk := r.clk + 1 }

/-- Instruction `rol %[byte]` (1 clock): rotate left through carry. -/
def rol (r : Regs) : Regs :=
  let v := 2 * r.byte + (if r.carry then 1 else 0)
  { r with byte := v % 256, carry := decide (256 ≤ v), zero := decide (v % 256 = 0),
           clk := r.clk + 1 }

/-- Instruction `ldi %[bit], 8` (1 clock). -/
def ldi (r : Regs) : Regs := { r with bit := 8, clk := r.clk + 1 }

/-- Instruction `ld %[byte], %a[ptr]+` (2 clocks): plain data-space read with
post-increment of the 16-bit pointer. -/
def ld (mem : Nat → Nat) (r : Regs) : Regs :=
  { r with byte := mem r.ptr % 256, ptr := (r.ptr + 1) % 65536, clk := r.clk + 2 }

/-- Instruction `sbiw %[count], 1` (2 clocks): 16-bit decrement, sets zero and
carry (borrow). -/
def sbiw (r : Regs) : Regs :=
  let v := (r.count + 65535) % 65536
  { r with count := v, zero := decide (v = 0), carry := decide (r.count = 0),
           clk := r.clk + 2 }

/-- One pass of the loop from the label `head20` back to `head20` (result `true`)
or out of the `asm` block (result `false`): one bit period. -/
def period (hi lo : Nat) (mem : Nat → Nat) (r : Regs) : Regs × Bool :=
  -- head20:
  let r := st hi r
  let r := sbrcMov hi r
  let r := dec r
  let r := nop r
  let r := st r.next r
  let r := movNext lo r
  if r.zero then
    -- breq nextbyte20, taken (2 clocks)
    let r := { r with clk := r.clk + 2 }
    let r := ldi r
    let r := ld mem r
    let r := rjmp0 r
    let r := rjmp0 r
    let r := rjmp0 r
    let r := rjmp0 r
    let r := st lo r
    let r := rjmp0 r
    let r := sbiw r
    -- brne head20: 2 clocks when taken, 1 when falling through
    if r.zero then ({ r with clk := r.clk + 1 }, false)
    else ({ r with clk := r.clk + 2 }, true)
  else
    -- breq nextbyte20, not taken (1 clock)
    let r := { r with clk := r.clk + 1 }
    let r := rol r
    let r := rjmp0 r
    let r := rjmp0 r
    let r := rjmp0 r
    let r := rjmp0 r
    let r := rjmp0 r
    let r := nop r
    let r := st lo r
    let r := rjmp0 r
    let r := rjmp0 r
    -- rjmp head20 (2 clocks)
    ({ r with clk := r.clk + 2 }, true)

/-- The `asm` block: bit periods until the loop falls through, at most `fuel`. -/
def emit (hi lo : Nat) (mem : Nat → Nat) : Nat → Regs → Option Regs
  | 0, _ => none
  | fuel + 1, r =>
    match period hi lo mem r with
    | (r1, true) => emit hi lo mem fuel r1
    | (r1, false) => some r1

/-- Environment of one `show()` call: the successive results of `micros()`, the
content of the port register on entry, the data-space content behind the pixel
block, and the carry and zero flags on entry to the `asm` block. -/
structure Env where
  clock : List Nat
  portVal : Nat
  beyond : Nat → Nat
  carry : Bool
  zero : Bool

/-- Data space seen through `ptr`: the pixel block, then whatever follows it. -/
def dataSpace (buf : List Nat) (beyond : Nat → Nat) (k : Nat) : Nat :=
  match buf[k]? with
  | some v => v
  | none => beyond k

/-- Busy wait `while((micros() - endTime) < 50L);` over the clock readings: the
readings consumed (as events) and the readings left, or `none` when the readings
run out before the latch time has elapsed. The difference is a 32-bit unsigned one. -/
def latchWait (endTime : Nat) : List Nat → Option (List Event × List Nat)
  | [] => none
  | t :: rest =>
    if ((t % 4294967296) + 4294967296 - endTime % 4294967296) % 4294967296 < 50 then
      match latchWait endTime rest with
      | some (evs, left) => some (Event.micros t :: evs, left)
      | none => none
    else some ([Event.micros t], rest)

/-- Port value with the output bit set, `hi = *port | pinMask`. -/
def portHi (s : Driver) (portVal : Nat) : Nat :=
  ((portVal % 256) ||| (s.pinMask % 256)) % 256

/-- Port value with the output bit cleared, `lo = *port & ~pinMask` (the
complement taken in a 16-bit `int`, the result stored to a byte). -/
def portLo (s : Driver) (portVal : Nat) : Nat :=
  ((portVal % 256) &&& (65535 - s.pinMask % 256)) % 256

/-- Bound on the bit periods of one `asm` block: the 16-bit byte counter allows
at most 65536 bytes of 8 bits. -/
def emitFuel : Nat := 8 * 65536

/-- Member `show()`.  The result is the driver afterwards and the effect trace;
`none` when the clock readings supplied do not suffice to finish the call. -/
def transmit (s : Driver) (env : Env) : Option (Driver × List Event) :=
  match s.pixels with
  | none => some (s, [])
  | some buf =>
    match latchWait s.endTime env.clock with
    | none => none
    | some (waited, clock1) =>
      let mem := dataSpace buf env.beyond
      -- noInterrupts(); i = numBytes; ptr = pixels; b = *ptr++;
      let hi := portHi s env.portVal
      let lo := portLo s env.portVal
      let r0 : Regs :=
        { byte := mem 0 % 256, bit := 8, next := lo, count := s.numBytes % 65536, ptr := 1,
          carry := env.carry, zero := env.zero, clk := 0, out := [] }
      match emit hi lo mem emitFuel r0 with
      | none => none
      | some r1 =>
        -- interrupts(); endTime = micros();
        match clock1 with
        | [] => none
        | t :: _ =>
          some ({ s with endTime := t % 4294967296 },
                waited ++ [Event.noInterrupts] ++ r1.out ++ [Event.interrupts, Event.micros t])

/-- The values written to the port, in order. -/
def portValues : List Event → List Nat
  | [] => []
  | Event.portWrite _ v :: evs => v :: portValues evs
  | _ :: evs => portValues evs

/-! ## State predicates of the data model -/

/-- The buffer is allocated and holds `3 × numLEDs = numBytes` bytes, a 16-bit size. -/
def Sized (s : Driver) : Prop :=
  match s.pixels with
  | none => False
  | some buf => buf.length = s.numBytes ∧ s.numBytes = 3 * s.numLEDs ∧ s.numBytes < 65536

instance (s : Driver) : Decidable (Sized s) := by
  unfold Sized; cases s.pixels <;> infer_instance

/-- The channel offsets are those of one of the colour orders RGB, GRB, BRG. -/
def Ordered (s : Driver) : Prop :=
  (s.rOffset = 0 ∧ s.gOffset = 1 ∧ s.bOffset = 2) ∨
  (s.rOffset = 1 ∧ s.gOffset = 0 ∧ s.bOffset = 2) ∨
  (s.rOffset = 1 ∧ s.gOffset = 2 ∧ s.bOffset = 0)

instance (s : Driver) : Decidable (Ordered s) := by
  unfold Ordered; infer_instance

/-! ## Call sequences and the brightness invariant -/

/-- One call on the pixel buffer. -/
inductive Op where
  | setPixel (n r g b : Nat)
  | setPixel32 (n c : Nat)
  | setBright (b : Nat)
  deriving DecidableEq, Repr

/-- Effect of one call. -/
def Op.run : Op → Driver → Except Fault Driver
  | .setPixel n r g b, s => setPixelColor s n r g b
  | .setPixel32 n c, s => setPixelColor32 s n c
  | .setBright b, s => setBrightness s b

/-- Effect of a sequence of calls, in order. -/
def runOps : List Op → Driver → Except Fault Driver
  | [], s => .ok s
  | op :: ops, s =>
    match op.run s with
    | .ok s1 => runOps ops s1
    | .error e => .error e

/-- Every stored byte is at most the effective brightness `(stored - 1) mod 256`. -/
def Bounded (s : Driver) : Prop :=
  match s.pixels with
  | none => True
  | some buf => ∀ c ∈ buf, c ≤ (s.brightness + 255) % 256

/-- Invariant of the pixel buffer: allocated at its full size, offsets of a
colour order, stored brightness a byte and every stored byte within the
effective brightness. -/
def Inv (s : Driver) : Prop :=
  Sized s ∧ Ordered s ∧ Bounded s ∧ s.brightness < 256

/-! ## Expected output of the emitter -/

/-- The three port writes of one bit period for bit `j` of the byte `b`: HIGH,
then HIGH for a 1-bit or LOW for a 0-bit, then LOW. -/
def bitWrites (hi lo b j : Nat) : List Nat :=
  [hi, if b.testBit j then hi else lo, lo]

/-- The port writes of a whole frame: for each byte in buffer order, for bit 7
down to bit 0, the three writes of that bit. -/
def frameWrites (hi lo : Nat) (buf : List Nat) : List Nat :=
  buf.flatMap (fun b => [7, 6, 5, 4, 3, 2, 1, 0].flatMap (bitWrites hi lo b))

/-- Stamped port writes of the low `m` bits of `b`, most significant first, the
first one issued at clock `c`. -/
def bitsOut (hi lo b : Nat) : Nat → Nat → List Event
  | 0, _ => []
  | m + 1, c =>
    [Event.portWrite c hi, Event.portWrite (c + 6) (if b.testBit m then hi else lo),
      Event.portWrite (c + 22) lo] ++ bitsOut hi lo b m (c + 30)

/-- Stamped port writes of a sequence of bytes, the first one issued at clock `c`. -/
def bytesOut (hi lo : Nat) : List Nat → Nat → List Event
  | [], _ => []
  | b :: bs, c => bitsOut hi lo b 8 c ++ bytesOut hi lo bs (c + 240)

/-- The `n` bytes the loop loads through `ptr`, starting at offset `p`. -/
def fetched (mem : Nat → Nat) : Nat → Nat → List Nat
  | 0, _ => []
  | n + 1, p => mem p % 256 :: fetched mem n ((p + 1) % 65536)

/-- State at the next `head20` (or at loop exit) once the `m` remaining bits of
the current byte `b` have been sent from the state `r`. -/
def afterByte (hi lo : Nat) (mem : Nat → Nat) (r : Regs) (b m : Nat) : Regs :=
  { byte := mem r.ptr % 256, bit := 8, next := lo,
    count := (r.count + 65535) % 65536, ptr := (r.ptr + 1) % 65536,
    carry := decide (r.count = 0),
    zero := decide ((r.count + 65535) % 65536 = 0),
    clk := if (r.count + 65535) % 65536 = 0 then r.clk + 30 * m - 1 else r.clk + 30 * m,
    out := r.out ++ bitsOut hi lo b m r.clk }

/-- The bytes one `show()` call sends: the byte read before the loop, then the
bytes loaded at each byte boundary but the last. -/
def sentBytes (s : Driver) (buf : List Nat) (beyond : Nat → Nat) : List Nat :=
  dataSpace buf beyond 0 % 256 ::
    fetched (dataSpace buf beyond) ((s.numBytes % 65536 + 65535) % 65536) 1

/-- The latch gap is respected in a trace: everything before `noInterrupts()` is
a clock reading, and the last of these readings `t` has `t - endTime ≥ 50` in
32-bit unsigned arithmetic. -/
def LatchRespected (endTime : Nat) (tr : List Event) : Prop :=
  ∃ (pre : List Nat) (t : Nat) (post : List Event),
    tr = pre.map Event.micros ++ [Event.micros t, Event.noInterrupts] ++ post ∧
    50 ≤ ((t % 4294967296) + 4294967296 - endTime % 4294967296) % 4294967296

/-! ## Sample objects -/

/-- A two-pixel GRB driver on a pin with mask 1, built by the constructor with
the flag values `NEO_GRB = 1`, `NEO_BRG = 4`, a successful allocation and zeroed
storage. -/
def sampleDriver : Driver := construct 1 4 true 0 0 1 2 6 1

/-- The driver `sampleDriver` with colours stored in its buffer. -/
def sampleLit : Driver := { sampleDriver with pixels := some [20, 10, 30, 0, 129, 255] }

/-- The same construction when `malloc` fails. -/
def sampleNull : Driver := construct 1 4 false 0 0 1 2 6 1

/-- An environment in which the third clock reading is past the latch time. -/
def sampleEnv : Env :=
  { clock := [10, 40, 60, 2000], portVal := 128, beyond := fun _ => 0, carry := false,
    zero := false }

/-- The driver `sampleDriver` after one `show()` in `sampleEnv`. -/
def sampleShown : Driver := { sampleDriver with endTime := 2000 % 4294967296 }

/-- The effect trace of `show()` on `sampleDriver` in `sampleEnv`. -/
def sampleTrace : List Event :=
  [Event.micros 10, Event.micros 40, Event.micros 60] ++ [Event.noInterrupts] ++
    bytesOut (portHi sampleDriver sampleEnv.portVal) (portLo sampleDriver sampleEnv.portVal)
      (sentBytes sampleDriver [0, 0, 0, 0, 0, 0] sampleEnv.beyond) 0 ++
    [Event.interrupts, Event.micros 2000]

/-- An environment for a second call right after the first. -/
def sampleEnv2 : Env :=
  { clock := [2010, 2049, 2050, 5000], portVal := 128, beyond := fun _ => 0, carry := false,
    zero := false }

/-- The effect trace of the second `show()`. -/
def sampleTrace2 : List Event :=
  [Event.micros 2010, Event.micros 2049, Event.micros 2050] ++ [Event.noInterrupts] ++
    bytesOut (portHi sampleShown sampleEnv2.portVal) (portLo sampleShown sampleEnv2.portVal)
      (sentBytes sampleShown [0, 0, 0, 0, 0, 0] sampleEnv2.beyond) 0 ++
    [Event.interrupts, Event.micros 5000]

/-- A short sequence of calls on the pixel buffer. -/
def sampleOps : List Op :=
  [Op.setPixel 0 255 128 7, Op.setBright 40, Op.setPixel32 1 16777215]

/-! ## Rescale factor as the specification words it -/

/-- The scale of a brightness change from the old effective brightness `old` to
the level `level`: 0 when `old` is 0, `65535 / old` when `level` is 255, and
`(((level + 1) << 8) - 1) / old` otherwise. -/
def specScale (level old : Nat) : Nat :=
  if old = 0 then 0
  else if level = 255 then 65535 / old
  else (((level + 1) <<< 8) - 1) / old

/-- Registers at the first `head20` of a frame whose first byte is 129. -/
def sampleRegs : Regs :=
  { byte := 129, bit := 8, next := 128, count := 3, ptr := 1, carry := false, zero := false,
    clk := 0, out := [] }

/-- Registers at the `head20` of the last bit of a byte that is not the last. -/
def sampleRegsLast : Regs :=
  { byte := 128, bit := 1, next := 128, count := 3, ptr := 1, carry := false, zero := false,
    clk := 210, out := [] }

/-- A constructed driver whose pixel count makes `n * 3` exceed 16 bits. -/
def sampleWrapped : Driver := construct 1 4 true 0 0 1 21846 6 1

/-- The buffer is allocated and holds `numBytes` bytes. -/
def Backed (s : Driver) : Prop :=
  match s.pixels with
  | none => False
  | some buf => buf.length = s.numBytes

/-- The output line is HIGH in the port value `v`: every bit of `pinMask` is set. -/
def lineHigh (s : Driver) (v : Nat) : Prop :=
  v &&& (s.pinMask % 256) = s.pinMask % 256

/-- The output line is LOW in the port value `v`: every bit of `pinMask` is clear. -/
def lineLow (s : Driver) (v : Nat) : Prop :=
  v &&& (s.pinMask % 256) = 0

instance (s : Driver) (v : Nat) : Decidable (lineHigh s v) := by
  unfold lineHigh; infer_instance

instance (s : Driver) (v : Nat) : Decidable (lineLow s v) := by
  unfold lineLow; infer_instance

/-! ## Lemmas -/

theorem pack_eq (r g b : Nat) (hg : g < 256) (hb : b < 256) :
    (r <<< 16) ||| (g <<< 8) ||| b = r * 65536 + g * 256 + b := by
  have h1 : g * 256 + b = g * 256 ||| b := by
    have := Nat.mul_add_lt_is_or (i := 8) (b := b) (by omega) g
    simpa [Nat.mul_comm] using this
  have h2 : r * 65536 + (g * 256 + b) = r * 65536 ||| (g * 256 + b) := by
    have := Nat.mul_add_lt_is_or (i := 16) (b := g * 256 + b) (by omega) r
    simpa [Nat.mul_comm] using this
  rw [Nat.shiftLeft_eq, Nat.shiftLeft_eq, Nat.or_assoc]
  show r * 65536 ||| (g * 256 ||| b) = _
  rw [← h1, ← h2]; omega

theorem Sized.exists_buf {s : Driver} (h : Sized s) :
    ∃ buf, s.pixels = some buf ∧ buf.length = s.numBytes ∧ s.numBytes = 3 * s.numLEDs
      ∧ s.numBytes < 65536 := by
  unfold Sized at h
  cases hp : s.pixels with
  | none => simp [hp] at h
  | some buf => rw [hp] at h; exact ⟨buf, rfl, h⟩

theorem store_some (buf : List Nat) (i v : Nat) (h : i < buf.length) :
    store (some buf) i v = .ok (some (buf.set i v)) := by
  simp [store, h]

theorem load_some (buf : List Nat) (i : Nat) (h : i < buf.length) :
    load (some buf) i = .ok buf[i] := by
  simp [load, List.getElem?_eq_getElem h]

theorem storePixel_some (s : Driver) (buf : List Nat) (n r g b : Nat)
    (hp : s.pixels = some buf)
    (h1 : (n * 3) % 65536 + s.rOffset < buf.length)
    (h2 : (n * 3) % 65536 + s.gOffset < buf.length)
    (h3 : (n * 3) % 65536 + s.bOffset < buf.length) :
    storePixel s n r g b = .ok { s with
      pixels := some (((buf.set ((n * 3) % 65536 + s.rOffset) r).set
        ((n * 3) % 65536 + s.gOffset) g).set ((n * 3) % 65536 + s.bOffset) b) } := by
  have h2' : (n * 3) % 65536 + s.gOffset < (buf.set ((n * 3) % 65536 + s.rOffset) r).length := by
    simpa using h2
  have h3' : (n * 3) % 65536 + s.bOffset <
      ((buf.set ((n * 3) % 65536 + s.rOffset) r).set ((n * 3) % 65536 + s.gOffset) g).length := by
    simpa using h3
  simp only [storePixel, hp, store_some _ _ _ h1, store_some _ _ _ h2', store_some _ _ _ h3',
    bind, Except.bind, pure, Except.pure]

theorem getPixelColor_some (s : Driver) (buf : List Nat) (n : Nat) (x y z : Nat)
    (hp : s.pixels = some buf) (hn : n % 65536 < s.numLEDs)
    (h1 : buf[(n % 65536 * 3) % 65536 + s.rOffset]? = some x)
    (h2 : buf[(n % 65536 * 3) % 65536 + s.gOffset]? = some y)
    (h3 : buf[(n % 65536 * 3) % 65536 + s.bOffset]? = some z) :
    getPixelColor s n = .ok (((x <<< 16) ||| (y <<< 8) ||| z) % 4294967296) := by
  unfold getPixelColor
  simp only [hn, if_true, hp, load, h1, h2, h3]
  rfl

theorem Color_eq (r g b : Nat) (hr : r < 256) (hg : g < 256) (hb : b < 256) :
    Color r g b = r * 65536 + g * 256 + b := by
  unfold Color
  rw [Nat.mod_eq_of_lt hr, Nat.mod_eq_of_lt hg, Nat.mod_eq_of_lt hb, pack_eq r g b hg hb]
  omega

theorem setBrightness_same (s : Driver) (level : Nat)
    (h : (level % 256 + 1) % 256 = s.brightness) : setBrightness s level = .ok s := by
  simp [setBrightness, h]

theorem setBrightness_brightness (s s1 : Driver) (level : Nat)
    (h : setBrightness s level = .ok s1) : s1.brightness = (level % 256 + 1) % 256 := by
  unfold setBrightness at h
  by_cases hc : (level % 256 + 1) % 256 = s.brightness
  · simp [hc] at h; rw [← h]; exact hc.symm
  · simp only [ne_eq, hc, not_false_eq_true, if_true, bind, Except.bind] at h
    split at h
    · cases h
    · simp only [pure, Except.pure, Except.ok.injEq] at h
      rw [← h]

theorem rescaleLoop_append (scale : Nat) (suf pre : List Nat) :
    rescaleLoop scale suf.length pre.length (some (pre ++ suf)) =
      .ok (some (pre ++ suf.map (fun c => (((c * scale) % 65536) >>> 8) % 256))) := by
  induction suf generalizing pre with
  | nil => simp [rescaleLoop]
  | cons x xs ih =>
    have h := ih (pre ++ [(((x * scale) % 65536) >>> 8) % 256])
    simp only [List.length_append, List.length_singleton, List.append_assoc,
      List.singleton_append] at h
    simp only [List.length_cons, rescaleLoop, load, store, List.getElem?_append_right,
      le_refl, Nat.sub_self, List.getElem?_cons_zero, bind, Except.bind, List.length_append,
      List.set_append_right, List.set_cons_zero, List.map_cons]
    simp only [Nat.lt_add_right_iff_pos, Nat.zero_lt_succ, if_true]
    exact h

theorem rescaleLoop_map (scale : Nat) (buf : List Nat) :
    rescaleLoop scale buf.length 0 (some buf) =
      .ok (some (buf.map (fun c => (((c * scale) % 65536) >>> 8) % 256))) := by
  simpa using rescaleLoop_append scale buf []

theorem scale8_le (c br : Nat) (hc : c < 256) (h1 : br < 256) :
    scale8 c br ≤ (br + 255) % 256 := by
  unfold scale8
  have h : c * br ≤ 255 * br := Nat.mul_le_mul_right br (by omega)
  rw [Nat.shiftRight_eq_div_pow]
  norm_num
  omega

theorem rescaled_le (c b br : Nat) (hb : b < 256) (hc : c ≤ (br + 255) % 256) :
    (((c * brightnessScale b ((b + 1) % 256) ((br + 255) % 256)) % 65536) >>> 8) % 256
      ≤ ((b + 1) % 256 + 255) % 256 := by
  rw [Nat.shiftRight_eq_div_pow]
  unfold brightnessScale
  by_cases h0 : (br + 255) % 256 = 0
  · simp [h0]
  · by_cases h255 : b = 255
    · simp only [h0, h255, if_false, if_true]; omega
    · simp only [h0, h255, if_false]
      rw [Nat.shiftLeft_eq]
      have hnb : (b + 1) % 256 = b + 1 := Nat.mod_eq_of_lt (by omega)
      rw [hnb]
      have e : ((b + 1) * 2 ^ 8 % 65536 + 65535) % 65536 = (b + 1) * 256 - 1 := by omega
      rw [e]
      have h1 : c * (((b + 1) * 256 - 1) / ((br + 255) % 256))
          ≤ ((br + 255) % 256) * (((b + 1) * 256 - 1) / ((br + 255) % 256)) :=
        Nat.mul_le_mul_right _ hc
      have h2 := Nat.mul_div_le ((b + 1) * 256 - 1) ((br + 255) % 256)
      generalize c * (((b + 1) * 256 - 1) / ((br + 255) % 256)) = x at *
      generalize ((br + 255) % 256) * (((b + 1) * 256 - 1) / ((br + 255) % 256)) = y at *
      norm_num
      omega

theorem storePixel_inv (s : Driver) (n r g b : Nat) (hs : Inv s) (hn : n < s.numLEDs)
    (hr : r ≤ (s.brightness + 255) % 256) (hg : g ≤ (s.brightness + 255) % 256)
    (hb : b ≤ (s.brightness + 255) % 256) :
    ∃ s1, storePixel s n r g b = .ok s1 ∧ Inv s1 ∧ s1.brightness = s.brightness := by
  obtain ⟨hsz, ho, hbd, hbr⟩ := hs
  obtain ⟨buf, hp, hlen, hnb, hlt⟩ := hsz.exists_buf
  have hp3 : (n * 3) % 65536 = n * 3 := Nat.mod_eq_of_lt (by omega)
  have hoff : s.rOffset ≤ 2 ∧ s.gOffset ≤ 2 ∧ s.bOffset ≤ 2 := by
    rcases ho with ⟨h1, h2, h3⟩ | ⟨h1, h2, h3⟩ | ⟨h1, h2, h3⟩ <;> omega
  rw [storePixel_some s buf n r g b hp (by omega) (by omega) (by omega)]
  refine ⟨_, rfl, ⟨?_, ho, ?_, hbr⟩, rfl⟩
  · simp only [Sized, List.length_set]; exact ⟨hlen, hnb, hlt⟩
  · simp only [Bounded, hp] at hbd ⊢
    intro c hc
    rcases List.mem_or_eq_of_mem_set hc with h | h
    · rcases List.mem_or_eq_of_mem_set h with h | h
      · rcases List.mem_or_eq_of_mem_set h with h | h
        · exact hbd c h
        · rw [h]; exact hr
      · rw [h]; exact hg
    · rw [h]; exact hb

theorem setPixelColor_inv (s : Driver) (n r g b : Nat) (hs : Inv s) :
    ∃ s1, setPixelColor s n r g b = .ok s1 ∧ Inv s1 ∧ s1.brightness = s.brightness := by
  unfold setPixelColor
  by_cases hn : n % 65536 < s.numLEDs
  · simp only [hn, if_true]
    by_cases h0 : s.brightness = 0
    · rw [if_neg (not_not_intro h0)]
      have h255 : (s.brightness + 255) % 256 = 255 := by rw [h0]
      exact storePixel_inv s _ _ _ _ hs hn (by omega) (by omega) (by omega)
    · rw [if_pos h0]
      exact storePixel_inv s _ _ _ _ hs hn
        (scale8_le _ _ (Nat.mod_lt _ (by decide)) hs.2.2.2)
        (scale8_le _ _ (Nat.mod_lt _ (by decide)) hs.2.2.2)
        (scale8_le _ _ (Nat.mod_lt _ (by decide)) hs.2.2.2)
  · simp only [hn, if_false]; exact ⟨s, rfl, hs, rfl⟩

theorem setPixelColor32_inv (s : Driver) (n c : Nat) (hs : Inv s) :
    ∃ s1, setPixelColor32 s n c = .ok s1 ∧ Inv s1 ∧ s1.brightness = s.brightness := by
  unfold setPixelColor32
  by_cases hn : n % 65536 < s.numLEDs
  · simp only [hn, if_true]
    by_cases h0 : s.brightness = 0
    · rw [if_neg (not_not_intro h0)]
      have h255 : (s.brightness + 255) % 256 = 255 := by rw [h0]
      exact storePixel_inv s _ _ _ _ hs hn (by omega) (by omega) (by omega)
    · rw [if_pos h0]
      exact storePixel_inv s _ _ _ _ hs hn
        (scale8_le _ _ (Nat.mod_lt _ (by decide)) hs.2.2.2)
        (scale8_le _ _ (Nat.mod_lt _ (by decide)) hs.2.2.2)
        (scale8_le _ _ (Nat.mod_lt _ (by decide)) hs.2.2.2)
  · simp only [hn, if_false]; exact ⟨s, rfl, hs, rfl⟩

theorem setBrightness_inv (s : Driver) (level : Nat) (hs : Inv s) :
    ∃ s1, setBrightness s level = .ok s1 ∧ Inv s1 ∧ s1.brightness = (level % 256 + 1) % 256 := by
  by_cases hc : (level % 256 + 1) % 256 = s.brightness
  · exact ⟨s, setBrightness_same s level hc, hs, hc.symm⟩
  · obtain ⟨hsz, ho, hbd, hbr⟩ := hs
    obtain ⟨buf, hp, hlen, hnb, hlt⟩ := hsz.exists_buf
    unfold setBrightness
    simp only [ne_eq, hc, not_false_eq_true, if_true, hp, ← hlen, rescaleLoop_map, bind,
      Except.bind, pure, Except.pure]
    refine ⟨_, rfl, ⟨?_, ho, ?_, Nat.mod_lt _ (by decide)⟩, rfl⟩
    · simp only [Sized, List.length_map]; exact ⟨trivial, by omega, by omega⟩
    · simp only [Bounded, hp] at hbd ⊢
      intro c hcm
      obtain ⟨c0, hc0, rfl⟩ := List.mem_map.1 hcm
      exact rescaled_le c0 (level % 256) s.brightness (Nat.mod_lt _ (by decide)) (hbd c0 hc0)

theorem runOps_inv (ops : List Op) (s : Driver) (hs : Inv s) :
    ∃ s1, runOps ops s = .ok s1 ∧ Inv s1 := by
  induction ops generalizing s with
  | nil => exact ⟨s, rfl, hs⟩
  | cons op ops ih =>
    have h : ∃ s1, op.run s = .ok s1 ∧ Inv s1 := by
      cases op with
      | setPixel n r g b =>
        obtain ⟨s1, h1, h2, _⟩ := setPixelColor_inv s n r g b hs; exact ⟨s1, h1, h2⟩
      | setPixel32 n c =>
        obtain ⟨s1, h1, h2, _⟩ := setPixelColor32_inv s n c hs; exact ⟨s1, h1, h2⟩
      | setBright b =>
        obtain ⟨s1, h1, h2, _⟩ := setBrightness_inv s b hs; exact ⟨s1, h1, h2⟩
    obtain ⟨s1, h1, h2⟩ := h
    obtain ⟨s2, h3, h4⟩ := ih s1 h2
    exact ⟨s2, by simp [runOps, h1, h3], h4⟩

theorem construct_inv (G B e0 mask n p t : Nat) (hn : 3 * (n % 65536) < 65536) :
    Inv (construct G B true 0 e0 mask n p t) := by
  have h3 : (n % 65536 * 3) % 65536 = 3 * (n % 65536) := by omega
  refine ⟨?_, ?_, ?_, ?_⟩
  · simp only [Sized, construct, if_true, List.length_replicate, h3]
    exact ⟨trivial, trivial, hn⟩
  · unfold Ordered construct
    by_cases h1 : t % 256 &&& G ≠ 0
    · simp [h1]
    · by_cases h2 : t % 256 &&& B ≠ 0
      · simp [h1, h2]
      · simp [h1, h2]
  · simp only [Bounded, construct, if_true]
    intro c hc
    rw [List.eq_of_mem_replicate hc]; omega
  · simp [construct]

theorem getPixelColor_dark (s : Driver) (i : Nat) (hs : Inv s) (h1 : s.brightness = 1) :
    getPixelColor s i = .ok 0 := by
  obtain ⟨hsz, ho, hbd, hbr⟩ := hs
  obtain ⟨buf, hp, hlen, hnb, hlt⟩ := hsz.exists_buf
  by_cases hn : i % 65536 < s.numLEDs
  · have hp3 : (i % 65536 * 3) % 65536 = i % 65536 * 3 := Nat.mod_eq_of_lt (by omega)
    have hoff : s.rOffset ≤ 2 ∧ s.gOffset ≤ 2 ∧ s.bOffset ≤ 2 := by
      rcases ho with ⟨h1, h2, h3⟩ | ⟨h1, h2, h3⟩ | ⟨h1, h2, h3⟩ <;> omega
    simp only [Bounded, hp, h1] at hbd
    have hz : ∀ k, k < buf.length → buf[k]? = some 0 := by
      intro k hk
      rw [List.getElem?_eq_getElem hk]
      have := hbd buf[k] (List.getElem_mem hk)
      simp at this
      rw [this]
    rw [getPixelColor_some s buf i 0 0 0 hp hn (hz _ (by omega)) (hz _ (by omega))
      (hz _ (by omega))]
    rfl
  · simp [getPixelColor, hn]

theorem period_mid (hi lo : Nat) (mem : Nat → Nat) (r : Regs)
    (h1 : 2 ≤ r.bit) (h2 : r.bit ≤ 8) :
    period hi lo mem r =
      ({ byte := (2 * r.byte + (if r.carry then 1 else 0)) % 256,
         bit := r.bit - 1, next := lo, count := r.count, ptr := r.ptr,
         carry := decide (256 ≤ 2 * r.byte + (if r.carry then 1 else 0)),
         zero := decide ((2 * r.byte + (if r.carry then 1 else 0)) % 256 = 0),
         clk := r.clk + 30,
         out := r.out ++ [Event.portWrite r.clk hi,
           Event.portWrite (r.clk + 6) (if r.byte.testBit 7 then hi else r.next),
           Event.portWrite (r.clk + 22) lo] }, true) := by
  have hd : (r.bit + 255) % 256 = r.bit - 1 := by omega
  have hz : ¬ (r.bit - 1 = 0) := by omega
  unfold period
  by_cases hb : r.byte.testBit 7 <;>
    simp [st, sbrcMov, dec, nop, movNext, rol, rjmp0, hb, hd, hz, Nat.add_assoc]

theorem period_last (hi lo : Nat) (mem : Nat → Nat) (r : Regs) (h1 : r.bit = 1) :
    period hi lo mem r =
      ({ byte := mem r.ptr % 256, bit := 8, next := lo,
         count := (r.count + 65535) % 65536, ptr := (r.ptr + 1) % 65536,
         carry := decide (r.count = 0),
         zero := decide ((r.count + 65535) % 65536 = 0),
         clk := if (r.count + 65535) % 65536 = 0 then r.clk + 29 else r.clk + 30,
         out := r.out ++ [Event.portWrite r.clk hi,
           Event.portWrite (r.clk + 6) (if r.byte.testBit 7 then hi else r.next),
           Event.portWrite (r.clk + 22) lo] },
       !decide ((r.count + 65535) % 65536 = 0)) := by
  unfold period
  by_cases hb : r.byte.testBit 7 <;> by_cases hc : (r.count + 65535) % 65536 = 0 <;>
    simp [st, sbrcMov, dec, nop, movNext, ldi, ld, sbiw, rjmp0, hb, hc, h1, Nat.add_assoc]

theorem rol_rel (m x b c : Nat) (hm : m ≤ 6) (hx : x < 256) (hc : c ≤ 1)
    (h : x / 2 ^ (6 - m) = b % 2 ^ (m + 2)) :
    x.testBit 7 = b.testBit (m + 1) ∧ ((2 * x + c) % 256) / 2 ^ (7 - m) = b % 2 ^ (m + 1) := by
  rw [Nat.testBit_to_div_mod, Nat.testBit_to_div_mod, decide_eq_decide]
  interval_cases m <;> norm_num at h ⊢ <;> omega

theorem last_rel (x b : Nat) (h : x / 2 ^ 7 = b % 2 ^ 1) :
    x.testBit 7 = b.testBit 0 := by
  rw [Nat.testBit_to_div_mod, Nat.testBit_to_div_mod, decide_eq_decide]
  norm_num at h ⊢; omega

theorem emit_byte_tail (hi lo : Nat) (mem : Nat → Nat) (b : Nat) (m : Nat) :
    ∀ (r : Regs) (fuel : Nat), r.bit = m + 1 → m ≤ 7 → r.next = lo → r.byte < 256 →
      r.byte / 2 ^ (7 - m) = b % 2 ^ (m + 1) →
      emit hi lo mem (fuel + (m + 1)) r =
        if (r.count + 65535) % 65536 = 0 then some (afterByte hi lo mem r b (m + 1))
        else emit hi lo mem fuel (afterByte hi lo mem r b (m + 1)) := by
  induction m with
  | zero =>
    intro r fuel hbit _ hnext hx hrel
    have ht := last_rel r.byte b hrel
    rw [show fuel + (0 + 1) = fuel + 1 from rfl, emit, period_last hi lo mem r hbit]
    by_cases hc : (r.count + 65535) % 65536 = 0 <;>
      simp [hc, afterByte, bitsOut, ht, hnext]
  | succ m ih =>
    intro r fuel hbit hm hnext hx hrel
    have hr := rol_rel m r.byte b (if r.carry then 1 else 0) (by omega) hx
      (by split <;> omega) (by rw [show 6 - m = 7 - (m + 1) by omega]; exact hrel)
    rw [show fuel + (m + 1 + 1) = (fuel + (m + 1)) + 1 from rfl, emit,
      period_mid hi lo mem r (by omega) (by omega)]
    simp only []
    rw [ih _ fuel (by simp [hbit]) (by omega) rfl (Nat.mod_lt _ (by decide)) hr.2]
    have e : afterByte hi lo mem
        { byte := (2 * r.byte + (if r.carry then 1 else 0)) % 256,
          bit := r.bit - 1, next := lo, count := r.count, ptr := r.ptr,
          carry := decide (256 ≤ 2 * r.byte + (if r.carry then 1 else 0)),
          zero := decide ((2 * r.byte + (if r.carry then 1 else 0)) % 256 = 0),
          clk := r.clk + 30,
          out := r.out ++ [Event.portWrite r.clk hi,
            Event.portWrite (r.clk + 6) (if r.byte.testBit 7 then hi else r.next),
            Event.portWrite (r.clk + 22) lo] } b (m + 1)
        = afterByte hi lo mem r b (m + 1 + 1) := by
      have hb : bitsOut hi lo b (m + 1 + 1) r.clk =
          [Event.portWrite r.clk hi,
            Event.portWrite (r.clk + 6) (if b.testBit (m + 1) then hi else lo),
            Event.portWrite (r.clk + 22) lo] ++ bitsOut hi lo b (m + 1) (r.clk + 30) := rfl
      have hk : (if (r.count + 65535) % 65536 = 0 then r.clk + 30 + 30 * (m + 1) - 1
          else r.clk + 30 + 30 * (m + 1)) =
          (if (r.count + 65535) % 65536 = 0 then r.clk + 30 * (m + 1 + 1) - 1
          else r.clk + 30 * (m + 1 + 1)) := by
        split <;> omega
      unfold afterByte
      rw [hb, hr.1, hnext]
      simp only [List.append_assoc, hk]
    rw [e]

theorem emit_bytes (hi lo : Nat) (mem : Nat → Nat) (n : Nat) :
    ∀ (r : Regs) (fuel : Nat), r.bit = 8 → r.next = lo → r.byte < 256 → n + 1 ≤ 65536 →
      r.count = (n + 1) % 65536 →
      ∃ rf, emit hi lo mem (fuel + 8 * (n + 1)) r = some rf ∧
        rf.out = r.out ++ bytesOut hi lo (r.byte :: fetched mem n r.ptr) r.clk := by
  induction n with
  | zero =>
    intro r fuel hbit hnext hx _ hcount
    have h := emit_byte_tail hi lo mem r.byte 7 r fuel hbit (le_refl 7) hnext hx
      (by norm_num; omega)
    have hz : (r.count + 65535) % 65536 = 0 := by rw [hcount]
    rw [if_pos hz] at h
    exact ⟨_, h, by simp [afterByte, bytesOut, fetched]⟩
  | succ n ih =>
    intro r fuel hbit hnext hx hn hcount
    have h := emit_byte_tail hi lo mem r.byte 7 r (fuel + 8 * (n + 1)) hbit (le_refl 7) hnext hx
      (by norm_num; omega)
    have hz : (r.count + 65535) % 65536 = (n + 1) % 65536 := by rw [hcount]; omega
    have hnz : ¬ (r.count + 65535) % 65536 = 0 := by rw [hz]; omega
    rw [if_neg hnz] at h
    obtain ⟨rf, h1, h2⟩ := ih (afterByte hi lo mem r r.byte (7 + 1)) fuel rfl rfl
      (Nat.mod_lt _ (by decide)) (by omega) hz
    refine ⟨rf, ?_, ?_⟩
    · rw [show fuel + 8 * (n + 1 + 1) = fuel + 8 * (n + 1) + (7 + 1) by omega, h, h1]
    · rw [h2]
      simp only [afterByte, if_neg hnz, bytesOut, fetched, List.append_assoc]

theorem emit_total (hi lo : Nat) (mem : Nat → Nat) (r : Regs)
    (hbit : r.bit = 8) (hnext : r.next = lo) (hx : r.byte < 256) (hc : r.count < 65536) :
    ∃ rf, emit hi lo mem emitFuel r = some rf ∧
      rf.out = r.out ++
        bytesOut hi lo (r.byte :: fetched mem ((r.count + 65535) % 65536) r.ptr) r.clk := by
  have hn : (r.count + 65535) % 65536 + 1 ≤ 65536 := by omega
  have h := emit_bytes hi lo mem ((r.count + 65535) % 65536) r
    (emitFuel - 8 * ((r.count + 65535) % 65536 + 1)) hbit hnext hx hn (by omega)
  rw [show emitFuel - 8 * ((r.count + 65535) % 65536 + 1) + 8 * ((r.count + 65535) % 65536 + 1)
    = emitFuel by unfold emitFuel; omega] at h
  exact h

theorem fetched_buf (buf : List Nat) (beyond : Nat → Nat) (n : Nat) :
    ∀ p, p + n ≤ buf.length → buf.length < 65536 →
      fetched (dataSpace buf beyond) n p = ((buf.drop p).take n).map (fun b => b % 256) := by
  induction n with
  | zero => intro p _ _; simp [fetched]
  | succ n ih =>
    intro p hp hlen
    have hp1 : p < buf.length := by omega
    rw [fetched, Nat.mod_eq_of_lt (by omega : p + 1 < 65536), ih (p + 1) (by omega) hlen,
      List.drop_eq_getElem_cons hp1]
    simp only [dataSpace, List.getElem?_eq_getElem hp1, List.take_succ_cons, List.map_cons]

theorem portValues_append (l1 l2 : List Event) :
    portValues (l1 ++ l2) = portValues l1 ++ portValues l2 := by
  induction l1 with
  | nil => rfl
  | cons e l ih => cases e <;> simp [portValues, ih]

theorem portValues_micros (l : List Nat) : portValues (l.map Event.micros) = [] := by
  induction l with
  | nil => rfl
  | cons e l ih => simp [portValues, ih]

theorem portValues_bytesOut (hi lo : Nat) (bs : List Nat) :
    ∀ c, portValues (bytesOut hi lo bs c) = frameWrites hi lo bs := by
  induction bs with
  | nil => intro c; rfl
  | cons b bs ih =>
    intro c
    rw [bytesOut, portValues_append, ih]
    simp [frameWrites, bitsOut, portValues, bitWrites]

theorem frameWrites_mod (hi lo : Nat) (buf : List Nat) :
    frameWrites hi lo (buf.map (fun b => b % 256)) = frameWrites hi lo buf := by
  have e : ∀ b j : Nat, j < 8 → (b % 256).testBit j = b.testBit j := by
    intro b j hj
    rw [show (256 : Nat) = 2 ^ 8 from rfl, Nat.testBit_mod_two_pow]
    simp [hj]
  induction buf with
  | nil => rfl
  | cons b bs ih =>
    simp only [frameWrites, List.map_cons, List.flatMap_cons] at ih ⊢
    rw [ih]
    simp [bitWrites, e]

theorem latchWait_some (endTime : Nat) (clock : List Nat) :
    ∀ waited left, latchWait endTime clock = some (waited, left) →
      ∃ pre t, waited = pre.map Event.micros ++ [Event.micros t] ∧ clock = pre ++ t :: left ∧
        50 ≤ ((t % 4294967296) + 4294967296 - endTime % 4294967296) % 4294967296 := by
  induction clock with
  | nil => intro waited left h; simp [latchWait] at h
  | cons u rest ih =>
    intro waited left h
    unfold latchWait at h
    by_cases hu : ((u % 4294967296) + 4294967296 - endTime % 4294967296) % 4294967296 < 50
    · rw [if_pos hu] at h
      cases hr : latchWait endTime rest with
      | none => simp [hr] at h
      | some x =>
        obtain ⟨evs, lft⟩ := x
        simp only [hr, Option.some.injEq, Prod.mk.injEq] at h
        obtain ⟨pre, t, h1, h2, h3⟩ := ih evs lft hr
        refine ⟨u :: pre, t, ?_, ?_, h3⟩
        · rw [← h.1, h1]; rfl
        · rw [h2, ← h.2]; rfl
    · rw [if_neg hu] at h
      simp only [Option.some.injEq, Prod.mk.injEq] at h
      exact ⟨[], u, by rw [← h.1]; rfl, by rw [← h.2]; rfl, by omega⟩

theorem transmit_some (s : Driver) (env : Env) (buf : List Nat) (waited : List Event)
    (t : Nat) (rest : List Nat) (hp : s.pixels = some buf)
    (hw : latchWait s.endTime env.clock = some (waited, t :: rest)) :
    transmit s env = some ({ s with endTime := t % 4294967296 },
      waited ++ [Event.noInterrupts] ++
        bytesOut (portHi s env.portVal) (portLo s env.portVal) (sentBytes s buf env.beyond) 0 ++
        [Event.interrupts, Event.micros t]) := by
  obtain ⟨rf, h1, h2⟩ := emit_total (portHi s env.portVal) (portLo s env.portVal)
    (dataSpace buf env.beyond)
    { byte := dataSpace buf env.beyond 0 % 256, bit := 8, next := portLo s env.portVal,
      count := s.numBytes % 65536, ptr := 1, carry := env.carry, zero := env.zero, clk := 0,
      out := [] } rfl rfl (Nat.mod_lt _ (by decide)) (Nat.mod_lt _ (by decide))
  simp only [List.nil_append] at h2
  simp only [transmit, hp, hw, h1, h2, sentBytes]

theorem transmit_returns (s s1 : Driver) (env : Env) (buf : List Nat) (tr : List Event)
    (hp : s.pixels = some buf) (h : transmit s env = some (s1, tr)) :
    ∃ waited t rest, latchWait s.endTime env.clock = some (waited, t :: rest) := by
  obtain ⟨rf, h1, _⟩ := emit_total (portHi s env.portVal) (portLo s env.portVal)
    (dataSpace buf env.beyond)
    { byte := dataSpace buf env.beyond 0 % 256, bit := 8, next := portLo s env.portVal,
      count := s.numBytes % 65536, ptr := 1, carry := env.carry, zero := env.zero, clk := 0,
      out := [] } rfl rfl (Nat.mod_lt _ (by decide)) (Nat.mod_lt _ (by decide))
  cases hw : latchWait s.endTime env.clock with
  | none => simp [transmit, hp, hw] at h
  | some x =>
    obtain ⟨waited, clock1⟩ := x
    cases clock1 with
    | nil => simp [transmit, hp, hw, h1] at h
    | cons t rest => exact ⟨waited, t, rest, rfl⟩

theorem sentBytes_sized (s : Driver) (buf : List Nat) (beyond : Nat → Nat)
    (hlen : buf.length = s.numBytes) (h1 : 1 ≤ s.numBytes) (h16 : s.numBytes < 65536) :
    sentBytes s buf beyond = buf.map (fun b => b % 256) := by
  have e : sentBytes s buf beyond = fetched (dataSpace buf beyond) (s.numBytes - 1 + 1) 0 := by
    unfold sentBytes
    rw [show (s.numBytes % 65536 + 65535) % 65536 = s.numBytes - 1 by omega]
    rfl
  rw [e, fetched_buf buf beyond _ 0 (by omega) (by omega)]
  rw [show s.numBytes - 1 + 1 = buf.length by omega]
  simp

theorem bytesOut_writes (hi lo : Nat) (bs : List Nat) :
    ∀ c, ∀ e ∈ bytesOut hi lo bs c, ∃ k v, e = Event.portWrite k v := by
  induction bs with
  | nil => intro c e he; simp [bytesOut] at he
  | cons b bs ih =>
    intro c e he
    rw [bytesOut, List.mem_append] at he
    rcases he with he | he
    · simp only [bitsOut, List.append_nil, List.cons_append, List.nil_append,
        List.mem_cons, List.mem_singleton, List.not_mem_nil, or_false] at he
      rcases he with h | h | h | h | h | h | h | h | h | h | h | h | h | h | h | h | h | h | h
        | h | h | h | h | h <;> exact ⟨_, _, h⟩
    · exact ih _ e he

theorem frameWrites_length (hi lo : Nat) (buf : List Nat) :
    (frameWrites hi lo buf).length = 3 * (8 * buf.length) := by
  induction buf with
  | nil => rfl
  | cons b bs ih =>
    simp only [frameWrites, List.flatMap_cons, List.length_append, List.length_cons] at ih ⊢
    rw [ih]
    simp [bitWrites]
    omega

theorem frameWrites_getLast (hi lo : Nat) (buf : List Nat) (h : buf ≠ []) :
    (frameWrites hi lo buf).getLast? = some lo := by
  induction buf with
  | nil => exact absurd rfl h
  | cons b bs ih =>
    by_cases hb : bs = []
    · subst hb; simp [frameWrites, bitWrites]
    · have := ih hb
      simp only [frameWrites, List.flatMap_cons] at this ⊢
      rw [List.getLast?_append, this]
      rfl

theorem frameWrites_bit (hi lo : Nat) (buf : List Nat) :
    ∀ k, k < 8 * buf.length →
      (frameWrites hi lo buf)[3 * k]? = some hi ∧ (frameWrites hi lo buf)[3 * k + 2]? = some lo := by
  induction buf with
  | nil => intro k hk; simp at hk
  | cons b bs ih =>
    intro k hk
    have hsplit : frameWrites hi lo (b :: bs) =
        [7, 6, 5, 4, 3, 2, 1, 0].flatMap (bitWrites hi lo b) ++ frameWrites hi lo bs := by
      simp [frameWrites]
    have hl : ([7, 6, 5, 4, 3, 2, 1, 0].flatMap (bitWrites hi lo b)).length = 24 := by
      simp [bitWrites]
    rw [hsplit]
    by_cases h8 : k < 8
    · rw [List.getElem?_append_left (by omega), List.getElem?_append_left (by omega)]
      interval_cases k <;> simp [bitWrites]
    · have := ih (k - 8) (by simp at hk; omega)
      rw [List.getElem?_append_right (by omega), List.getElem?_append_right (by omega), hl,
        show 3 * k - 24 = 3 * (k - 8) by omega, show 3 * k + 2 - 24 = 3 * (k - 8) + 2 by omega]
      exact this

theorem transmit_latch (s s1 : Driver) (env : Env) (buf : List Nat) (tr : List Event)
    (hp : s.pixels = some buf) (h : transmit s env = some (s1, tr)) :
    LatchRespected s.endTime tr ∧
      ∃ t, tr.getLast? = some (Event.micros t) ∧ s1 = { s with endTime := t % 4294967296 } := by
  obtain ⟨waited, t, rest, hw⟩ := transmit_returns s s1 env buf tr hp h
  obtain ⟨pre, u, hwt, _, hge⟩ := latchWait_some _ _ _ _ hw
  rw [transmit_some s env buf waited t rest hp hw] at h
  simp only [Option.some.injEq, Prod.mk.injEq] at h
  refine ⟨⟨pre, u, bytesOut (portHi s env.portVal) (portLo s env.portVal)
    (sentBytes s buf env.beyond) 0 ++ [Event.interrupts, Event.micros t], ?_, hge⟩, t, ?_,
    h.1.symm⟩
  · rw [← h.2, hwt]; simp
  · rw [← h.2, List.getLast?_append]; rfl

theorem compl16_testBit (m i : Nat) (hm : m < 256) :
    (65535 - m).testBit i = (decide (i < 16) && !m.testBit i) := by
  have h := Nat.testBit_two_pow_sub_succ (x := m) (n := 16) (by omega) i
  rw [show 2 ^ 16 - (m + 1) = 65535 - m by omega] at h
  exact h

theorem compl8_testBit (m i : Nat) (hm : m < 256) :
    (255 - m).testBit i = (decide (i < 8) && !m.testBit i) := by
  have h := Nat.testBit_two_pow_sub_succ (x := m) (n := 8) (by omega) i
  rw [show 2 ^ 8 - (m + 1) = 255 - m by omega] at h
  exact h

theorem portHi_high (s : Driver) (v : Nat) : lineHigh s (portHi s v) := by
  unfold lineHigh portHi
  apply Nat.eq_of_testBit_eq
  intro i
  rw [show (256 : Nat) = 2 ^ 8 from rfl]
  simp only [Nat.testBit_and, Nat.testBit_or, Nat.testBit_mod_two_pow]
  cases decide (i < 8) <;> cases v.testBit i <;> cases s.pinMask.testBit i <;> rfl

theorem portLo_low (s : Driver) (v : Nat) : lineLow s (portLo s v) := by
  unfold lineLow portLo
  apply Nat.eq_of_testBit_eq
  intro i
  rw [Nat.testBit_and, show (256 : Nat) = 2 ^ 8 from rfl, Nat.testBit_mod_two_pow,
    Nat.testBit_and, ← show (256 : Nat) = 2 ^ 8 from rfl,
    compl16_testBit _ i (Nat.mod_lt _ (by decide)), show (256 : Nat) = 2 ^ 8 from rfl,
    Nat.testBit_mod_two_pow, Nat.testBit_mod_two_pow, Nat.zero_testBit]
  cases decide (i < 8) <;> cases decide (i < 16) <;> cases v.testBit i <;>
    cases s.pinMask.testBit i <;> rfl

theorem portHi_rest (s : Driver) (v : Nat) :
    portHi s v &&& (255 - s.pinMask % 256) = (v % 256) &&& (255 - s.pinMask % 256) := by
  unfold portHi
  apply Nat.eq_of_testBit_eq
  intro i
  rw [Nat.testBit_and, Nat.testBit_and, compl8_testBit _ i (Nat.mod_lt _ (by decide)),
    show (256 : Nat) = 2 ^ 8 from rfl, Nat.testBit_mod_two_pow, Nat.testBit_or,
    Nat.testBit_mod_two_pow, Nat.testBit_mod_two_pow]
  cases decide (i < 8) <;> cases v.testBit i <;> cases s.pinMask.testBit i <;> rfl

theorem portLo_rest (s : Driver) (v : Nat) :
    portLo s v &&& (255 - s.pinMask % 256) = (v % 256) &&& (255 - s.pinMask % 256) := by
  unfold portLo
  apply Nat.eq_of_testBit_eq
  intro i
  have hlt : i < 8 → i < 16 := fun h => by omega
  rw [Nat.testBit_and, Nat.testBit_and, compl8_testBit _ i (Nat.mod_lt _ (by decide)),
    show (256 : Nat) = 2 ^ 8 from rfl, Nat.testBit_mod_two_pow, Nat.testBit_and,
    ← show (256 : Nat) = 2 ^ 8 from rfl, compl16_testBit _ i (Nat.mod_lt _ (by decide)),
    show (256 : Nat) = 2 ^ 8 from rfl, Nat.testBit_mod_two_pow, Nat.testBit_mod_two_pow]
  by_cases h8 : i < 8
  · simp only [h8, hlt h8, decide_True, Bool.true_and]
    cases v.testBit i <;> cases s.pinMask.testBit i <;> rfl
  · simp [h8]

theorem portHi_ne_portLo (s : Driver) (v : Nat) (hm : s.pinMask % 256 ≠ 0) :
    portHi s v ≠ portLo s v := by
  intro h
  have h1 := portHi_high s v
  have h2 := portLo_low s v
  unfold lineHigh at h1
  unfold lineLow at h2
  rw [h, h2] at h1
  exact hm h1.symm

theorem frameWrites_mid (hi lo : Nat) (buf : List Nat) :
    ∀ k, k < 8 * buf.length →
      (frameWrites hi lo buf)[3 * k + 1]? =
        some (if (buf.getD (k / 8) 0).testBit (7 - k % 8) then hi else lo) := by
  induction buf with
  | nil => intro k hk; simp at hk
  | cons b bs ih =>
    intro k hk
    have hsplit : frameWrites hi lo (b :: bs) =
        [7, 6, 5, 4, 3, 2, 1, 0].flatMap (bitWrites hi lo b) ++ frameWrites hi lo bs := by
      simp [frameWrites]
    have hl : ([7, 6, 5, 4, 3, 2, 1, 0].flatMap (bitWrites hi lo b)).length = 24 := by
      simp [bitWrites]
    rw [hsplit]
    by_cases h8 : k < 8
    · rw [List.getElem?_append_left (by omega)]
      interval_cases k <;> simp [bitWrites]
    · have := ih (k - 8) (by simp at hk; omega)
      rw [List.getElem?_append_right (by omega), hl,
        show 3 * k + 1 - 24 = 3 * (k - 8) + 1 by omega, this,
        show k / 8 = (k - 8) / 8 + 1 by omega, show k % 8 = (k - 8) % 8 by omega,
        List.getD_cons_succ]

/-! ## The claims -/

/-- C1: at the no-scaling brightness (stored value 0), for each of the colour
orders RGB, GRB and BRG, every index `i < numLEDs` and all bytes `r`, `g`, `b`,
`getPixelColor(i)` after `setPixelColor(i, r, g, b)` returns the packed value
`(r << 16) | (g << 8) | b`.  The driver holds its `3 × numLEDs` byte buffer. -/
theorem set_get_roundtrip (s : Driver) (i r g b : Nat)
    (hs : Sized s) (ho : Ordered s) (hbr : s.brightness = 0)
    (hi : i < s.numLEDs) (hr : r < 256) (hg : g < 256) (hb : b < 256) :
    ∃ s1, setPixelColor s i r g b = .ok s1 ∧
      getPixelColor s1 i = .ok ((r <<< 16) ||| (g <<< 8) ||| b) := by
  obtain ⟨buf, hp, hlen, hnb, hlt⟩ := hs.exists_buf
  have hi16 : i % 65536 = i := Nat.mod_eq_of_lt (by omega)
  have hp3 : (i * 3) % 65536 = i * 3 := Nat.mod_eq_of_lt (by omega)
  have hpk : ((r <<< 16) ||| (g <<< 8) ||| b) % 4294967296 = (r <<< 16) ||| (g <<< 8) ||| b := by
    rw [pack_eq r g b hg hb]; omega
  unfold setPixelColor
  simp only [hi16, hi, if_true, hbr, ne_eq, not_true_eq_false, if_false,
    Nat.mod_eq_of_lt hr, Nat.mod_eq_of_lt hg, Nat.mod_eq_of_lt hb]
  rcases ho with ⟨h1, h2, h3⟩ | ⟨h1, h2, h3⟩ | ⟨h1, h2, h3⟩ <;>
  · rw [storePixel_some s buf i r g b hp (by omega) (by omega) (by omega)]
    refine ⟨_, rfl, ?_⟩
    rw [← hpk]
    apply getPixelColor_some _ _ _ _ _ _ rfl (by simpa [hi16] using hi) <;>
      simp only [hi16, hp3, h1, h2, h3] <;>
      simp [List.getElem?_set, hlen] <;> omega

theorem set_get_roundtrip_witness :
    Sized sampleDriver ∧ Ordered sampleDriver ∧ sampleDriver.brightness = 0 ∧
      1 < sampleDriver.numLEDs ∧
      ∃ s1, setPixelColor sampleDriver 1 10 20 30 = .ok s1 ∧
        getPixelColor s1 1 = .ok ((10 <<< 16) ||| (20 <<< 8) ||| 30) :=
  ⟨by decide, by decide, by decide, by decide,
    set_get_roundtrip sampleDriver 1 10 20 30 (by decide) (by decide) (by decide) (by decide)
      (by decide) (by decide) (by decide)⟩

/-- C2: for every 16-bit index `n ≥ numLEDs` and every colour, both overloads of
`setPixelColor` return with the driver (every buffer byte and the brightness)
unchanged, and `getPixelColor(n)` returns 0. -/
theorem out_of_range_ignored (s : Driver) (n r g b c : Nat)
    (hn16 : n < 65536) (hn : s.numLEDs ≤ n) :
    setPixelColor s n r g b = .ok s ∧ setPixelColor32 s n c = .ok s ∧
      getPixelColor s n = .ok 0 := by
  have h : ¬ n % 65536 < s.numLEDs := by rw [Nat.mod_eq_of_lt hn16]; omega
  simp [setPixelColor, setPixelColor32, getPixelColor, h]

theorem out_of_range_ignored_witness :
    2 < 65536 ∧ sampleDriver.numLEDs ≤ 2 ∧
      setPixelColor sampleDriver 2 10 20 30 = .ok sampleDriver ∧
      setPixelColor32 sampleDriver 2 16777215 = .ok sampleDriver ∧
      getPixelColor sampleDriver 2 = .ok 0 :=
  ⟨by decide, by decide,
    out_of_range_ignored sampleDriver 2 10 20 30 16777215 (by decide) (by decide)⟩

/-- C3: for an allocated buffer of `numBytes ≥ 1` bytes, once the latch wait is
over `show()` returns, and the values it writes to the port are exactly, for each
byte in order and for bit 7 down to bit 0, the three writes HIGH, HIGH-or-LOW by
the bit, LOW; so `3 × 8 × numBytes` writes, every bit period starts HIGH and
ends LOW, the middle write of bit period `k` follows bit `7 - k mod 8` of byte
`k / 8`, and the last write is LOW.  HIGH is a port value in which the output
line is high (every bit of `pinMask` set), LOW one in which it is low (every bit
of `pinMask` clear); both leave the other bits of the port as read on entry, and
they differ as soon as `pinMask` is not zero. -/
theorem show_emits_frame (s : Driver) (env : Env) (buf : List Nat) (waited : List Event)
    (t : Nat) (rest : List Nat)
    (hp : s.pixels = some buf) (hlen : buf.length = s.numBytes)
    (h1 : 1 ≤ s.numBytes) (h16 : s.numBytes < 65536)
    (hw : latchWait s.endTime env.clock = some (waited, t :: rest)) :
    ∃ s1 tr, transmit s env = some (s1, tr) ∧
      portValues tr = frameWrites (portHi s env.portVal) (portLo s env.portVal) buf ∧
      (portValues tr).length = 3 * (8 * s.numBytes) ∧
      (∀ k, k < 8 * s.numBytes →
        (portValues tr)[3 * k]? = some (portHi s env.portVal) ∧
        (portValues tr)[3 * k + 2]? = some (portLo s env.portVal)) ∧
      (portValues tr).getLast? = some (portLo s env.portVal) ∧
      (∀ k, k < 8 * s.numBytes →
        (portValues tr)[3 * k + 1]? =
          some (if (buf.getD (k / 8) 0).testBit (7 - k % 8) then portHi s env.portVal
            else portLo s env.portVal)) ∧
      lineHigh s (portHi s env.portVal) ∧ lineLow s (portLo s env.portVal) ∧
      portHi s env.portVal &&& (255 - s.pinMask % 256) =
        (env.portVal % 256) &&& (255 - s.pinMask % 256) ∧
      portLo s env.portVal &&& (255 - s.pinMask % 256) =
        (env.portVal % 256) &&& (255 - s.pinMask % 256) ∧
      (s.pinMask % 256 ≠ 0 → portHi s env.portVal ≠ portLo s env.portVal) := by
  obtain ⟨pre, u, hwt, _, _⟩ := latchWait_some _ _ _ _ hw
  have hv : portValues (waited ++ [Event.noInterrupts] ++
      bytesOut (portHi s env.portVal) (portLo s env.portVal) (sentBytes s buf env.beyond) 0 ++
      [Event.interrupts, Event.micros t]) =
      frameWrites (portHi s env.portVal) (portLo s env.portVal) buf := by
    rw [portValues_append, portValues_append, portValues_append, portValues_bytesOut,
      sentBytes_sized s buf env.beyond hlen h1 h16, frameWrites_mod, hwt, portValues_append,
      portValues_micros]
    simp [portValues]
  refine ⟨_, _, transmit_some s env buf waited t rest hp hw, hv, ?_, ?_, ?_, ?_,
    portHi_high s env.portVal, portLo_low s env.portVal, portHi_rest s env.portVal,
    portLo_rest s env.portVal, portHi_ne_portLo s env.portVal⟩
  · rw [hv, frameWrites_length, hlen]
  · intro k hk
    rw [hv]
    exact frameWrites_bit _ _ buf k (by rw [hlen]; exact hk)
  · rw [hv]
    exact frameWrites_getLast _ _ buf (by intro h; rw [h] at hlen; simp at hlen; omega)
  · intro k hk
    rw [hv]
    exact frameWrites_mid _ _ buf k (by rw [hlen]; exact hk)

theorem show_emits_frame_witness :
    (portHi sampleLit sampleEnv.portVal = 129 ∧ portLo sampleLit sampleEnv.portVal = 128 ∧
      sampleLit.pinMask = 1) ∧
    ∃ s1 tr, transmit sampleLit sampleEnv = some (s1, tr) ∧
      portValues tr = frameWrites (portHi sampleLit sampleEnv.portVal)
        (portLo sampleLit sampleEnv.portVal) [20, 10, 30, 0, 129, 255] ∧
      (portValues tr).length = 3 * (8 * sampleLit.numBytes) ∧
      (∀ k, k < 8 * sampleLit.numBytes →
        (portValues tr)[3 * k]? = some (portHi sampleLit sampleEnv.portVal) ∧
        (portValues tr)[3 * k + 2]? = some (portLo sampleLit sampleEnv.portVal)) ∧
      (portValues tr).getLast? = some (portLo sampleLit sampleEnv.portVal) ∧
      (∀ k, k < 8 * sampleLit.numBytes →
        (portValues tr)[3 * k + 1]? =
          some (if (([20, 10, 30, 0, 129, 255] : List Nat).getD (k / 8) 0).testBit (7 - k % 8)
            then portHi sampleLit sampleEnv.portVal else portLo sampleLit sampleEnv.portVal)) ∧
      lineHigh sampleLit (portHi sampleLit sampleEnv.portVal) ∧
      lineLow sampleLit (portLo sampleLit sampleEnv.portVal) ∧
      portHi sampleLit sampleEnv.portVal &&& (255 - sampleLit.pinMask % 256) =
        (sampleEnv.portVal % 256) &&& (255 - sampleLit.pinMask % 256) ∧
      portLo sampleLit sampleEnv.portVal &&& (255 - sampleLit.pinMask % 256) =
        (sampleEnv.portVal % 256) &&& (255 - sampleLit.pinMask % 256) ∧
      (sampleLit.pinMask % 256 ≠ 0 →
        portHi sampleLit sampleEnv.portVal ≠ portLo sampleLit sampleEnv.portVal) :=
  ⟨by decide,
    show_emits_frame sampleLit sampleEnv [20, 10, 30, 0, 129, 255]
      [Event.micros 10, Event.micros 40, Event.micros 60] 2000 [] (by decide) (by decide)
      (by decide) (by decide) (by decide)⟩

/-- C4 (code at the failing input): on a driver whose allocation failed, an
in-range `setPixelColor` (either overload), an in-range `getPixelColor` and a
`setBrightness` that changes the level each access the buffer through the null
pointer. -/
theorem null_buffer_is_accessed :
    sampleNull.pixels = none ∧
      setPixelColor sampleNull 0 1 2 3 = .error Fault.nullDeref ∧
      setPixelColor32 sampleNull 0 66051 = .error Fault.nullDeref ∧
      getPixelColor sampleNull 0 = .error Fault.nullDeref ∧
      setBrightness sampleNull 5 = .error Fault.nullDeref := by
  decide

/-- C5: for an allocated buffer, the effect trace of every returning `show()`
call is: clock readings only, then `noInterrupts()` once, then a non-empty run
of port writes only, then `interrupts()` once, then the final clock reading.
So every port write lies between the single disable and the single enable, and
the call returns with interrupts enabled. -/
theorem show_interrupt_bracket (s s1 : Driver) (env : Env) (buf : List Nat) (tr : List Event)
    (hp : s.pixels = some buf) (h : transmit s env = some (s1, tr)) :
    ∃ (readings : List Nat) (writes : List Event) (t : Nat),
      tr = readings.map Event.micros ++ [Event.noInterrupts] ++ writes ++
        [Event.interrupts, Event.micros t] ∧
      writes ≠ [] ∧ (∀ e ∈ writes, ∃ k v, e = Event.portWrite k v) ∧
      tr.count Event.noInterrupts = 1 ∧ tr.count Event.interrupts = 1 := by
  obtain ⟨waited, t, rest, hw⟩ := transmit_returns s s1 env buf tr hp h
  obtain ⟨pre, u, hwt, _, _⟩ := latchWait_some _ _ _ _ hw
  rw [transmit_some s env buf waited t rest hp hw] at h
  simp only [Option.some.injEq, Prod.mk.injEq] at h
  have hwr := bytesOut_writes (portHi s env.portVal) (portLo s env.portVal)
    (sentBytes s buf env.beyond) 0
  have hc1 : ∀ l : List Nat, (l.map Event.micros).count Event.noInterrupts = 0 ∧
      (l.map Event.micros).count Event.interrupts = 0 := by
    intro l
    constructor <;>
    · rw [List.count_eq_zero]; intro hm
      obtain ⟨_, _, hx⟩ := List.mem_map.1 hm
      cases hx
  have hc2 : (bytesOut (portHi s env.portVal) (portLo s env.portVal)
        (sentBytes s buf env.beyond) 0).count Event.noInterrupts = 0 ∧
      (bytesOut (portHi s env.portVal) (portLo s env.portVal)
        (sentBytes s buf env.beyond) 0).count Event.interrupts = 0 := by
    constructor <;>
    · rw [List.count_eq_zero]; intro hm
      obtain ⟨_, _, hx⟩ := hwr _ hm
      cases hx
  refine ⟨pre ++ [u], _, t, ?_, ?_, hwr, ?_, ?_⟩
  · rw [← h.2, hwt]; simp
  · intro hnil
    have hl := congrArg List.length hnil
    rw [sentBytes, bytesOut, bitsOut] at hl
    simp only [List.length_append, List.length_cons] at hl
    omega
  · rw [← h.2, hwt]
    simp only [List.count_append, (hc1 pre).1, hc2.1]
    simp [List.count_cons]
  · rw [← h.2, hwt]
    simp only [List.count_append, (hc1 pre).2, hc2.2]
    simp [List.count_cons]

theorem show_interrupt_bracket_witness :
    sampleDriver.pixels = some [0, 0, 0, 0, 0, 0] ∧
      transmit sampleDriver sampleEnv = some (sampleShown, sampleTrace) ∧
      ∃ (readings : List Nat) (writes : List Event) (t : Nat),
        sampleTrace = readings.map Event.micros ++ [Event.noInterrupts] ++ writes ++
          [Event.interrupts, Event.micros t] ∧
        writes ≠ [] ∧ (∀ e ∈ writes, ∃ k v, e = Event.portWrite k v) ∧
        sampleTrace.count Event.noInterrupts = 1 ∧ sampleTrace.count Event.interrupts = 1 :=
  ⟨by decide,
    transmit_some sampleDriver sampleEnv [0, 0, 0, 0, 0, 0]
      [Event.micros 10, Event.micros 40, Event.micros 60] 2000 [] (by decide) (by decide),
    show_interrupt_bracket sampleDriver sampleShown sampleEnv [0, 0, 0, 0, 0, 0] sampleTrace
      (by decide)
      (transmit_some sampleDriver sampleEnv [0, 0, 0, 0, 0, 0]
        [Event.micros 10, Event.micros 40, Event.micros 60] 2000 [] (by decide) (by decide))⟩

/-- C6: in every returning `show()` on an allocated buffer, all that precedes
`noInterrupts()` and the first port write are clock readings, the last of which,
`t`, has `t - endTime ≥ 50` (32-bit unsigned difference); the call ends by
recording a clock reading `te` in `endTime`, so in a `show()` that follows, the
line is first driven after a reading at least 50 microseconds past `te`. -/
theorem show_latch_gap (s s1 s2 : Driver) (env1 env2 : Env) (buf : List Nat)
    (tr1 tr2 : List Event) (hp : s.pixels = some buf)
    (h1 : transmit s env1 = some (s1, tr1)) (h2 : transmit s1 env2 = some (s2, tr2)) :
    LatchRespected s.endTime tr1 ∧
      ∃ te, tr1.getLast? = some (Event.micros te) ∧ s1.endTime = te % 4294967296 ∧
        LatchRespected te tr2 := by
  obtain ⟨hl1, te, hlast, hs1⟩ := transmit_latch s s1 env1 buf tr1 hp h1
  have hp1 : s1.pixels = some buf := by rw [hs1]; exact hp
  obtain ⟨⟨pre, u, post, htr, hge⟩, _⟩ := transmit_latch s1 s2 env2 buf tr2 hp1 h2
  refine ⟨hl1, te, hlast, by rw [hs1], pre, u, post, htr, ?_⟩
  rw [hs1] at hge
  simpa using hge

theorem show_latch_gap_witness :
    sampleDriver.pixels = some [0, 0, 0, 0, 0, 0] ∧
      transmit sampleDriver sampleEnv = some (sampleShown, sampleTrace) ∧
      transmit sampleShown sampleEnv2 = some ({ sampleShown with endTime := 5000 }, sampleTrace2) ∧
      LatchRespected sampleDriver.endTime sampleTrace ∧
      ∃ te, sampleTrace.getLast? = some (Event.micros te) ∧
        sampleShown.endTime = te % 4294967296 ∧ LatchRespected te sampleTrace2 :=
  ⟨by decide,
    transmit_some sampleDriver sampleEnv [0, 0, 0, 0, 0, 0]
      [Event.micros 10, Event.micros 40, Event.micros 60] 2000 [] (by decide) (by decide),
    transmit_some sampleShown sampleEnv2 [0, 0, 0, 0, 0, 0]
      [Event.micros 2010, Event.micros 2049, Event.micros 2050] 5000 [] (by decide) (by decide),
    show_latch_gap sampleDriver sampleShown { sampleShown with endTime := 5000 } sampleEnv
      sampleEnv2 [0, 0, 0, 0, 0, 0] sampleTrace sampleTrace2 (by decide)
      (transmit_some sampleDriver sampleEnv [0, 0, 0, 0, 0, 0]
        [Event.micros 10, Event.micros 40, Event.micros 60] 2000 [] (by decide) (by decide))
      (transmit_some sampleShown sampleEnv2 [0, 0, 0, 0, 0, 0]
        [Event.micros 2010, Event.micros 2049, Event.micros 2050] 5000 [] (by decide)
        (by decide))⟩

/-- C7: a driver constructed with the GRB flag has offsets red 1, green 0,
blue 2; on such a driver at the no-scaling brightness, for every `i < numLEDs`
and all bytes, after `setPixelColor(i, r, g, b)` the raw buffer holds `g` at byte
`3i`, `r` at byte `3i + 1` and `b` at byte `3i + 2`, while `getPixelColor(i)`
returns the canonical `(r << 16) | (g << 8) | b`. -/
theorem grb_layout (NEO_GRB NEO_BRG : Nat) (allocOk : Bool) (b0 e0 mask n p t : Nat)
    (s : Driver) (i r g b : Nat)
    (hflag : t % 256 &&& NEO_GRB ≠ 0)
    (hro : s.rOffset = (construct NEO_GRB NEO_BRG allocOk b0 e0 mask n p t).rOffset)
    (hgo : s.gOffset = (construct NEO_GRB NEO_BRG allocOk b0 e0 mask n p t).gOffset)
    (hbo : s.bOffset = (construct NEO_GRB NEO_BRG allocOk b0 e0 mask n p t).bOffset)
    (hs : Sized s) (hbr : s.brightness = 0)
    (hi : i < s.numLEDs) (hr : r < 256) (hg : g < 256) (hb : b < 256) :
    ∃ s1 buf1, setPixelColor s i r g b = .ok s1 ∧ s1.pixels = some buf1 ∧
      buf1[3 * i]? = some g ∧ buf1[3 * i + 1]? = some r ∧ buf1[3 * i + 2]? = some b ∧
      getPixelColor s1 i = .ok ((r <<< 16) ||| (g <<< 8) ||| b) := by
  have h1 : s.rOffset = 1 := by rw [hro]; simp [construct, hflag]
  have h2 : s.gOffset = 0 := by rw [hgo]; simp [construct, hflag]
  have h3 : s.bOffset = 2 := by rw [hbo]; simp [construct, hflag]
  obtain ⟨buf, hp, hlen, hnb, hlt⟩ := hs.exists_buf
  have hi16 : i % 65536 = i := Nat.mod_eq_of_lt (by omega)
  have hp3 : (i * 3) % 65536 = i * 3 := Nat.mod_eq_of_lt (by omega)
  have hpk : ((r <<< 16) ||| (g <<< 8) ||| b) % 4294967296 = (r <<< 16) ||| (g <<< 8) ||| b := by
    rw [pack_eq r g b hg hb]; omega
  have hset : setPixelColor s i r g b = storePixel s i r g b := by
    unfold setPixelColor
    simp only [hi16, hi, if_true, hbr, ne_eq, not_true_eq_false, if_false,
      Nat.mod_eq_of_lt hr, Nat.mod_eq_of_lt hg, Nat.mod_eq_of_lt hb]
  rw [hset, storePixel_some s buf i r g b hp (by omega) (by omega) (by omega)]
  refine ⟨_, _, rfl, rfl, ?_, ?_, ?_, ?_⟩
  · simp only [hp3, h1, h2, h3, Nat.mul_comm 3 i]; simp [List.getElem?_set, hlen]; omega
  · simp only [hp3, h1, h2, h3, Nat.mul_comm 3 i]; simp [List.getElem?_set, hlen]; omega
  · simp only [hp3, h1, h2, h3, Nat.mul_comm 3 i]; simp [List.getElem?_set, hlen]; omega
  · rw [← hpk]
    apply getPixelColor_some _ _ _ _ _ _ rfl (by simpa [hi16] using hi) <;>
      simp only [hi16, hp3, h1, h2, h3] <;>
      simp [List.getElem?_set, hlen] <;> omega

theorem grb_layout_witness :
    ∃ s1 buf1, setPixelColor sampleDriver 0 10 20 30 = .ok s1 ∧ s1.pixels = some buf1 ∧
      buf1[3 * 0]? = some 20 ∧ buf1[3 * 0 + 1]? = some 10 ∧ buf1[3 * 0 + 2]? = some 30 ∧
      getPixelColor s1 0 = .ok ((10 <<< 16) ||| (20 <<< 8) ||| 30) :=
  grb_layout 1 4 true 0 0 1 2 6 1 sampleDriver 0 10 20 30 (by decide) rfl rfl rfl (by decide)
    (by decide) (by decide) (by decide) (by decide) (by decide)

/-- C8: for all bytes `r`, `g`, `b`, unpacking `c = Color(r, g, b)` as
`((c >> 16) & 255, (c >> 8) & 255, c & 255)` gives back `(r, g, b)`, and
`c < 2^24`. -/
theorem Color_unpack (r g b : Nat) (hr : r < 256) (hg : g < 256) (hb : b < 256) :
    ((Color r g b >>> 16) &&& 255, (Color r g b >>> 8) &&& 255, Color r g b &&& 255) = (r, g, b)
      ∧ Color r g b < 2 ^ 24 := by
  have e : ∀ x : Nat, x &&& 255 = x % 256 := fun x => Nat.and_pow_two_sub_one_eq_mod x 8
  rw [Color_eq r g b hr hg hb, e, e, e, Nat.shiftRight_eq_div_pow, Nat.shiftRight_eq_div_pow]
  refine ⟨?_, by omega⟩
  simp only [Prod.mk.injEq]
  omega

theorem Color_unpack_witness :
    (10 < 256 ∧ 20 < 256 ∧ 30 < 256) ∧
      ((Color 10 20 30 >>> 16) &&& 255, (Color 10 20 30 >>> 8) &&& 255, Color 10 20 30 &&& 255)
        = (10, 20, 30) ∧ Color 10 20 30 < 2 ^ 24 :=
  ⟨by decide, Color_unpack 10 20 30 (by decide) (by decide) (by decide)⟩

/-- C9: `setBrightness(level)` returns with the driver unchanged whenever
`(level + 1) mod 256` equals the stored biased brightness; so a second
consecutive `setBrightness(level)` changes nothing, and `setBrightness(255)`
changes nothing when the stored value is 0 (data written at brightness 255). -/
theorem setBrightness_unchanged_noop (s : Driver) (level : Nat) :
    ((level % 256 + 1) % 256 = s.brightness → setBrightness s level = .ok s) ∧
    (∀ s1, setBrightness s level = .ok s1 → setBrightness s1 level = .ok s1) ∧
    (s.brightness = 0 → setBrightness s 255 = .ok s) := by
  refine ⟨setBrightness_same s level, ?_, ?_⟩
  · intro s1 h
    exact setBrightness_same s1 level (setBrightness_brightness s s1 level h).symm
  · intro h
    exact setBrightness_same s 255 (by rw [h])

theorem setBrightness_unchanged_noop_witness :
    setBrightness sampleDriver 255 = .ok sampleDriver ∧
      setBrightness sampleDriver 9 = .ok { sampleDriver with brightness := 10 } ∧
      setBrightness { sampleDriver with brightness := 10 } 9
        = .ok { sampleDriver with brightness := 10 } :=
  ⟨(setBrightness_unchanged_noop sampleDriver 255).1 (by decide), by decide,
    (setBrightness_unchanged_noop sampleDriver 9).2.1 _ (by decide)⟩

/-- C10: in every state reached from a successful construction (zeroed buffer
of `3 × n` bytes, stored brightness 0) by any sequence of `setPixelColor` and
`setBrightness` calls, `setBrightness(0)` returns and afterwards
`getPixelColor(i)` returns 0 for every index `i`. -/
theorem dark_after_zero (NEO_GRB NEO_BRG e0 mask n p t : Nat) (ops : List Op)
    (hn : 3 * n < 65536) :
    ∃ s s1, runOps ops (construct NEO_GRB NEO_BRG true 0 e0 mask n p t) = .ok s ∧
      setBrightness s 0 = .ok s1 ∧ ∀ i, getPixelColor s1 i = .ok 0 := by
  obtain ⟨s, hrun, hinv⟩ := runOps_inv ops _
    (construct_inv NEO_GRB NEO_BRG e0 mask n p t (by omega))
  obtain ⟨s1, hset, hinv1, hb1⟩ := setBrightness_inv s 0 hinv
  exact ⟨s, s1, hrun, hset, fun i => getPixelColor_dark s1 i hinv1 hb1⟩

theorem dark_after_zero_witness :
    3 * 2 < 65536 ∧
      ∃ s s1, runOps sampleOps (construct 1 4 true 0 0 1 2 6 1) = .ok s ∧
        setBrightness s 0 = .ok s1 ∧ ∀ i, getPixelColor s1 i = .ok 0 :=
  ⟨by decide, dark_after_zero 1 4 0 1 2 6 1 sampleOps (by decide)⟩

theorem brightnessScale_spec (level old : Nat) (hl : level < 256) :
    brightnessScale level ((level + 1) % 256) old = specScale level old := by
  unfold brightnessScale specScale
  by_cases h0 : old = 0
  · rw [if_pos h0, if_pos h0]
  · by_cases h255 : level = 255
    · simp only [h0, h255, if_false, if_true]
      exact Nat.mod_eq_of_lt (Nat.lt_of_le_of_lt (Nat.div_le_self _ _) (by decide))
    · simp only [h0, h255, if_false]
      rw [Nat.mod_eq_of_lt (by omega : level + 1 < 256), Nat.shiftLeft_eq]
      have e : ((level + 1) * 2 ^ 8 % 65536 + 65535) % 65536 = (level + 1) * 2 ^ 8 - 1 := by
        omega
      rw [e]

theorem period_general (hi lo : Nat) (mem : Nat → Nat) (r : Regs) :
    (period hi lo mem r).1.out = r.out ++ [Event.portWrite r.clk hi,
        Event.portWrite (r.clk + 6) (if r.byte.testBit 7 then hi else r.next),
        Event.portWrite (r.clk + 22) lo] ∧
      (period hi lo mem r).1.next = lo ∧
      (period hi lo mem r).1.clk = (if (period hi lo mem r).2 then r.clk + 30 else r.clk + 29) := by
  unfold period
  by_cases hb : r.byte.testBit 7 <;> by_cases hz : (r.bit + 255) % 256 = 0 <;>
    by_cases hc : (r.count + 65535) % 65536 = 0 <;>
    simp [st, sbrcMov, dec, nop, movNext, rol, ldi, ld, sbiw, rjmp0, hb, hz, hc, Nat.add_assoc]

theorem setPixelColor32_eq (s : Driver) (n c : Nat) :
    setPixelColor32 s n c =
      setPixelColor s n ((c % 4294967296) >>> 16) ((c % 4294967296) >>> 8) (c % 4294967296) := by
  unfold setPixelColor32 setPixelColor
  have e : c % 4294967296 % 256 = c % 256 := by omega
  simp only [e]

/-- C12: on an allocated buffer of `numBytes` bytes, for every byte `level` with
`(level + 1) mod 256` different from the stored brightness, `setBrightness(level)`
replaces every stored byte `c` by `(c × scale) >> 8` kept as a byte and stores
`(level + 1) mod 256`, where `scale` is 0 for `old = 0`, `65535 / old` for
`level = 255` and `(((level + 1) << 8) - 1) / old` otherwise, `old` being
`(stored - 1) mod 256`. -/
theorem setBrightness_rescales (s : Driver) (buf : List Nat) (level : Nat)
    (hp : s.pixels = some buf) (hlen : buf.length = s.numBytes) (hl : level < 256)
    (hne : (level + 1) % 256 ≠ s.brightness) :
    setBrightness s level = .ok { s with
      pixels := some (buf.map (fun c =>
        ((c * specScale level ((s.brightness + 255) % 256)) >>> 8) % 256)),
      brightness := (level + 1) % 256 } := by
  have hm : level % 256 = level := Nat.mod_eq_of_lt hl
  have hf : (fun c : Nat => (((c * specScale level ((s.brightness + 255) % 256)) % 65536) >>> 8)
      % 256) = (fun c => ((c * specScale level ((s.brightness + 255) % 256)) >>> 8) % 256) := by
    funext c
    rw [Nat.shiftRight_eq_div_pow, Nat.shiftRight_eq_div_pow]
    norm_num
    omega
  unfold setBrightness
  simp only [hm, ne_eq, hne, not_false_eq_true, if_true, hp, ← hlen, brightnessScale_spec _ _ hl,
    rescaleLoop_map, bind, Except.bind, pure, Except.pure, hf]

theorem setBrightness_rescales_witness :
    setBrightness sampleLit 127 = .ok { sampleLit with
      pixels := some ([20, 10, 30, 0, 129, 255].map (fun c =>
        ((c * specScale 127 ((sampleLit.brightness + 255) % 256)) >>> 8) % 256)),
      brightness := (127 + 1) % 256 } :=
  setBrightness_rescales sampleLit [20, 10, 30, 0, 129, 255] 127 (by decide) (by decide)
    (by decide) (by decide)

/-- C13: with the annotated clock counts, every pass of the loop that goes back
to `head20` takes 30 clocks, whatever the bit sent and on both the within-byte
and the `nextbyte20` path: the HIGH write of the next bit issues 30 clocks after
the HIGH write of this one.  Within the period the writes are at clocks 0, 6 and
22; the one at clock 6 is HIGH for a 1-bit and the pending `next` (LOW) for a
0-bit, the one at clock 22 is LOW. -/
theorem bit_period_constant (hi lo : Nat) (mem : Nat → Nat) (r : Regs)
    (hcont : (period hi lo mem r).2 = true) :
    (period hi lo mem r).1.clk = r.clk + 30 ∧
      (period hi lo mem r).1.next = lo ∧
      (period hi lo mem r).1.out = r.out ++ [Event.portWrite r.clk hi,
        Event.portWrite (r.clk + 6) (if r.byte.testBit 7 then hi else r.next),
        Event.portWrite (r.clk + 22) lo] ∧
      ∃ v, (period hi lo mem (period hi lo mem r).1).1.out =
        (period hi lo mem r).1.out ++ [Event.portWrite (r.clk + 30) hi,
          Event.portWrite (r.clk + 36) v, Event.portWrite (r.clk + 52) lo] := by
  obtain ⟨h1, h2, h3⟩ := period_general hi lo mem r
  obtain ⟨k1, _, _⟩ := period_general hi lo mem (period hi lo mem r).1
  rw [hcont] at h3
  simp only [if_true] at h3
  refine ⟨h3, h2, h1,
    (if (period hi lo mem r).1.byte.testBit 7 then hi else (period hi lo mem r).1.next), ?_⟩
  rw [k1, h3, Nat.add_assoc, Nat.add_assoc]

theorem bit_period_constant_witness :
    ((period 129 128 (fun _ => 7) sampleRegs).2 = true ∧
      (period 129 128 (fun _ => 7) sampleRegsLast).2 = true) ∧
      (period 129 128 (fun _ => 7) sampleRegs).1.clk = sampleRegs.clk + 30 ∧
      (period 129 128 (fun _ => 7) sampleRegsLast).1.clk = sampleRegsLast.clk + 30 :=
  ⟨by decide, (bit_period_constant 129 128 (fun _ => 7) sampleRegs (by decide)).1,
    (bit_period_constant 129 128 (fun _ => 7) sampleRegsLast (by decide)).1⟩

/-- C14 (code at the failing input): constructed for 21846 pixels with a
successful allocation, the driver has `numBytes = 2` and a two-byte buffer, and
the accesses of pixel 0 go past it. -/
theorem construct_wraps :
    sampleWrapped.numLEDs = 21846 ∧ sampleWrapped.numBytes = 2 ∧
      sampleWrapped.pixels = some [0, 0] ∧
      setPixelColor sampleWrapped 0 1 2 3 = .error Fault.outOfBounds ∧
      getPixelColor sampleWrapped 0 = .error Fault.outOfBounds := by
  decide

/-- C15: on a null pixel buffer `show()` returns at once: empty effect trace (no
port write, no `noInterrupts()`, no `interrupts()`, no clock reading) and the
driver, `endTime` included, unchanged. -/
theorem show_null_noop (s : Driver) (env : Env) (hp : s.pixels = none) :
    transmit s env = some (s, []) := by
  simp [transmit, hp]

theorem show_null_noop_witness :
    sampleNull.pixels = none ∧ transmit sampleNull sampleEnv = some (sampleNull, []) :=
  ⟨by decide, show_null_noop sampleNull sampleEnv (by decide)⟩

/-- C16 (code at the failing input): summed with the annotated counts, a bit
period is 30 clocks on the within-byte path and on the `nextbyte20` path, with
writes at clocks 0, 6 and 22 of the period. -/
theorem bit_period_sums_to_30 :
    period 129 128 (fun _ => 7) sampleRegs =
      ({ byte := 2, bit := 7, next := 128, count := 3, ptr := 1, carry := true, zero := false,
         clk := 30,
         out := [Event.portWrite 0 129, Event.portWrite 6 129, Event.portWrite 22 128] }, true) ∧
    period 129 128 (fun _ => 7) sampleRegsLast =
      ({ byte := 7, bit := 8, next := 128, count := 2, ptr := 2, carry := false, zero := false,
         clk := 240,
         out := [Event.portWrite 210 129, Event.portWrite 216 129, Event.portWrite 232 128] },
        true) := by
  decide

/-- C20: the two `setPixelColor` overloads agree: for every state, index `n`
and 32-bit `c` whose fields `(c >> 16) & 255`, `(c >> 8) & 255`, `c & 255` are
`r`, `g`, `b` (whatever the top 8 bits), `setPixelColor(n, c)` gives the same
result as `setPixelColor(n, r, g, b)`; in particular for `c = Color(r, g, b)`. -/
theorem overloads_agree (s : Driver) (n r g b c : Nat) (hc : c < 4294967296)
    (hr : (c >>> 16) &&& 255 = r) (hg : (c >>> 8) &&& 255 = g) (hb : c &&& 255 = b) :
    setPixelColor32 s n c = setPixelColor s n r g b ∧
      setPixelColor32 s n (Color r g b) = setPixelColor s n r g b := by
  have e : ∀ x : Nat, x &&& 255 = x % 256 := fun x => Nat.and_pow_two_sub_one_eq_mod x 8
  rw [e] at hr hg hb
  have hr8 : r < 256 := by omega
  have hg8 : g < 256 := by omega
  have hb8 : b < 256 := by omega
  have key : ∀ d : Nat, d < 4294967296 → (d >>> 16) % 256 = r → (d >>> 8) % 256 = g →
      d % 256 = b → setPixelColor32 s n d = setPixelColor s n r g b := by
    intro d hd h1 h2 h3
    rw [setPixelColor32_eq, Nat.mod_eq_of_lt hd]
    unfold setPixelColor
    simp only [h1, h2, h3, Nat.mod_eq_of_lt hr8, Nat.mod_eq_of_lt hg8, Nat.mod_eq_of_lt hb8]
  refine ⟨key c hc hr hg hb, ?_⟩
  have hC := Color_eq r g b hr8 hg8 hb8
  apply key
  · rw [hC]; omega
  · rw [hC, Nat.shiftRight_eq_div_pow]; omega
  · rw [hC, Nat.shiftRight_eq_div_pow]; omega
  · rw [hC]; omega

theorem overloads_agree_witness :
    (4278850590 < 4294967296 ∧ (4278850590 >>> 16) &&& 255 = 10 ∧
      (4278850590 >>> 8) &&& 255 = 20 ∧ 4278850590 &&& 255 = 30) ∧
      setPixelColor32 sampleDriver 1 4278850590 = setPixelColor sampleDriver 1 10 20 30 ∧
      setPixelColor32 sampleDriver 1 (Color 10 20 30) = setPixelColor sampleDriver 1 10 20 30 :=
  ⟨by decide, overloads_agree sampleDriver 1 10 20 30 4278850590 (by decide) (by decide)
    (by decide) (by decide)⟩

theorem storePixel_ok (s s1 : Driver) (n r g b : Nat) (h : storePixel s n r g b = .ok s1) :
    ∃ buf, s.pixels = some buf ∧ s1 = { s with
      pixels := some (((buf.set ((n * 3) % 65536 + s.rOffset) r).set
        ((n * 3) % 65536 + s.gOffset) g).set ((n * 3) % 65536 + s.bOffset) b) } := by
  cases hp : s.pixels with
  | none => simp [storePixel, hp, store, bind, Except.bind] at h
  | some buf =>
    refine ⟨buf, rfl, ?_⟩
    by_cases h1 : (n * 3) % 65536 + s.rOffset < buf.length
    · by_cases h2 : (n * 3) % 65536 + s.gOffset < buf.length
      · by_cases h3 : (n * 3) % 65536 + s.bOffset < buf.length
        · rw [storePixel_some s buf n r g b hp h1 h2 h3] at h
          simp only [Except.ok.injEq] at h
          rw [← h]
        · simp [storePixel, hp, store, bind, Except.bind, h1, h2, h3] at h
      · simp [storePixel, hp, store, bind, Except.bind, h1, h2] at h
    · simp [storePixel, hp, store, bind, Except.bind, h1] at h

theorem storePixel_kept (s s1 : Driver) (n r g b : Nat)
    (hk : Backed s) (hbd : Bounded s) (h : storePixel s n r g b = .ok s1)
    (hr : r ≤ (s.brightness + 255) % 256) (hg : g ≤ (s.brightness + 255) % 256)
    (hb : b ≤ (s.brightness + 255) % 256) :
    Backed s1 ∧ Bounded s1 ∧ s1.brightness = s.brightness := by
  obtain ⟨buf, hp, rfl⟩ := storePixel_ok s s1 n r g b h
  refine ⟨?_, ?_, rfl⟩
  · simp only [Backed, hp, List.length_set] at hk ⊢; exact hk
  · simp only [Bounded, hp] at hbd ⊢
    intro c hc
    rcases List.mem_or_eq_of_mem_set hc with h | h
    · rcases List.mem_or_eq_of_mem_set h with h | h
      · rcases List.mem_or_eq_of_mem_set h with h | h
        · exact hbd c h
        · rw [h]; exact hr
      · rw [h]; exact hg
    · rw [h]; exact hb

theorem setPixelColor_kept (s s1 : Driver) (n r g b : Nat)
    (hk : Backed s) (hbd : Bounded s) (hbr : s.brightness < 256)
    (h : setPixelColor s n r g b = .ok s1) :
    Backed s1 ∧ Bounded s1 ∧ s1.brightness < 256 := by
  unfold setPixelColor at h
  by_cases hn : n % 65536 < s.numLEDs
  · simp only [hn, if_true] at h
    by_cases h0 : s.brightness = 0
    · rw [if_neg (not_not_intro h0)] at h
      have h255 : (s.brightness + 255) % 256 = 255 := by rw [h0]
      obtain ⟨a, b, c⟩ := storePixel_kept s s1 _ _ _ _ hk hbd h (by omega) (by omega) (by omega)
      exact ⟨a, b, by omega⟩
    · rw [if_pos h0] at h
      obtain ⟨a, b, c⟩ := storePixel_kept s s1 _ _ _ _ hk hbd h
        (scale8_le _ _ (Nat.mod_lt _ (by decide)) hbr)
        (scale8_le _ _ (Nat.mod_lt _ (by decide)) hbr)
        (scale8_le _ _ (Nat.mod_lt _ (by decide)) hbr)
      exact ⟨a, b, by omega⟩
  · simp only [hn, if_false, Except.ok.injEq] at h
    rw [← h]; exact ⟨hk, hbd, hbr⟩

theorem setBrightness_kept (s s1 : Driver) (level : Nat)
    (hk : Backed s) (hbd : Bounded s) (hbr : s.brightness < 256)
    (h : setBrightness s level = .ok s1) :
    Backed s1 ∧ Bounded s1 ∧ s1.brightness < 256 := by
  by_cases hc : (level % 256 + 1) % 256 = s.brightness
  · rw [setBrightness_same s level hc] at h
    simp only [Except.ok.injEq] at h
    rw [← h]; exact ⟨hk, hbd, hbr⟩
  · cases hp : s.pixels with
    | none => simp [Backed, hp] at hk
    | some buf =>
      simp only [Backed, hp] at hk
      simp only [Bounded, hp] at hbd
      unfold setBrightness at h
      simp only [ne_eq, hc, not_false_eq_true, if_true, hp, ← hk, rescaleLoop_map, bind,
        Except.bind, pure, Except.pure, Except.ok.injEq] at h
      rw [← h]
      refine ⟨?_, ?_, Nat.mod_lt _ (by decide)⟩
      · simp only [Backed, List.length_map]
      · simp only [Bounded]
        intro c hcm
        obtain ⟨c0, hc0, rfl⟩ := List.mem_map.1 hcm
        exact rescaled_le c0 (level % 256) s.brightness (Nat.mod_lt _ (by decide)) (hbd c0 hc0)

theorem runOps_kept (ops : List Op) :
    ∀ (s s1 : Driver), Backed s → Bounded s → s.brightness < 256 → runOps ops s = .ok s1 →
      Backed s1 ∧ Bounded s1 ∧ s1.brightness < 256 := by
  induction ops with
  | nil =>
    intro s s1 hk hbd hbr h
    simp only [runOps, Except.ok.injEq] at h
    rw [← h]; exact ⟨hk, hbd, hbr⟩
  | cons op ops ih =>
    intro s s1 hk hbd hbr h
    unfold runOps at h
    cases hop : op.run s with
    | error e => simp [hop] at h
    | ok s2 =>
      simp only [hop] at h
      have h2 : Backed s2 ∧ Bounded s2 ∧ s2.brightness < 256 := by
        cases op with
        | setPixel n r g b => exact setPixelColor_kept s s2 n r g b hk hbd hbr hop
        | setPixel32 n c =>
          simp only [Op.run, setPixelColor32_eq] at hop
          exact setPixelColor_kept s s2 n _ _ _ hk hbd hbr hop
        | setBright b => exact setBrightness_kept s s2 b hk hbd hbr hop
      exact ih s2 s1 h2.1 h2.2.1 h2.2.2 h

theorem construct_kept (G B e0 mask n p t : Nat) :
    Backed (construct G B true 0 e0 mask n p t) ∧ Bounded (construct G B true 0 e0 mask n p t) ∧
      (construct G B true 0 e0 mask n p t).brightness < 256 := by
  refine ⟨?_, ?_, ?_⟩
  · simp only [Backed, construct, if_true, List.length_replicate]
  · simp only [Bounded, construct, if_true]
    intro c hc
    rw [List.eq_of_mem_replicate hc]; omega
  · simp [construct]

theorem rescale_product_lt (c b old : Nat) (hc : c ≤ old) :
    c * brightnessScale b ((b + 1) % 256) old < 65536 := by
  have key : ∀ y : Nat, y < 65536 → c * (y / old) < 65536 := by
    intro y hy
    have h1 : c * (y / old) ≤ old * (y / old) := Nat.mul_le_mul_right _ hc
    have h2 := Nat.mul_div_le y old
    omega
  unfold brightnessScale
  by_cases h0 : old = 0
  · rw [if_pos h0]; omega
  · rw [if_neg h0]
    by_cases h255 : b = 255
    · rw [if_pos h255, Nat.mod_eq_of_lt (Nat.lt_of_le_of_lt (Nat.div_le_self _ _) (by decide))]
      exact key 65535 (by decide)
    · rw [if_neg h255]
      exact key _ (Nat.mod_lt _ (by decide))

theorem set3_get (buf : List Nat) (i ro go bo r g b : Nat)
    (ho : (ro = 0 ∧ go = 1 ∧ bo = 2) ∨ (ro = 1 ∧ go = 0 ∧ bo = 2) ∨ (ro = 1 ∧ go = 2 ∧ bo = 0))
    (hlen : i * 3 + 2 < buf.length) :
    (((buf.set (i * 3 + ro) r).set (i * 3 + go) g).set (i * 3 + bo) b)[i * 3 + ro]? = some r ∧
    (((buf.set (i * 3 + ro) r).set (i * 3 + go) g).set (i * 3 + bo) b)[i * 3 + go]? = some g ∧
    (((buf.set (i * 3 + ro) r).set (i * 3 + go) g).set (i * 3 + bo) b)[i * 3 + bo]? = some b ∧
    ∀ k, k < 3 * i ∨ 3 * i + 3 ≤ k →
      (((buf.set (i * 3 + ro) r).set (i * 3 + go) g).set (i * 3 + bo) b)[k]? = buf[k]? := by
  rcases ho with ⟨h1, h2, h3⟩ | ⟨h1, h2, h3⟩ | ⟨h1, h2, h3⟩ <;> subst h1 h2 h3 <;>
    refine ⟨?_, ?_, ?_, ?_⟩ <;>
    first
      | (intro k hk
         rw [List.getElem?_set_ne (by omega), List.getElem?_set_ne (by omega),
           List.getElem?_set_ne (by omega)])
      | (simp [List.getElem?_set]; omega)

theorem setBrightness_sized (s : Driver) (buf : List Nat) (level : Nat)
    (hp : s.pixels = some buf) (hlen : buf.length = s.numBytes) :
    ∃ s1 buf1, setBrightness s level = .ok s1 ∧ s1.pixels = some buf1 ∧
      buf1.length = buf.length ∧ s1.numLEDs = s.numLEDs ∧ s1.numBytes = s.numBytes ∧
      s1.rOffset = s.rOffset ∧ s1.gOffset = s.gOffset ∧ s1.bOffset = s.bOffset ∧
      s1.brightness = (level % 256 + 1) % 256 := by
  by_cases hc : (level % 256 + 1) % 256 = s.brightness
  · exact ⟨s, buf, setBrightness_same s level hc, hp, rfl, rfl, rfl, rfl, rfl, rfl, hc.symm⟩
  · have hloop : ∀ scale, rescaleLoop scale s.numBytes 0 (some buf) =
        .ok (some (buf.map (fun c => (((c * scale) % 65536) >>> 8) % 256))) := by
      intro scale; rw [← hlen]; exact rescaleLoop_map scale buf
    unfold setBrightness
    simp only [ne_eq, hc, not_false_eq_true, if_true, hp, hloop, bind,
      Except.bind, pure, Except.pure]
    exact ⟨{ s with
        pixels := some (buf.map (fun c => (((c * brightnessScale (level % 256)
          ((level % 256 + 1) % 256) ((s.brightness + 255) % 256)) % 65536) >>> 8) % 256)),
        brightness := (level % 256 + 1) % 256 },
      buf.map (fun c => (((c * brightnessScale (level % 256) ((level % 256 + 1) % 256)
        ((s.brightness + 255) % 256)) % 65536) >>> 8) % 256), rfl, rfl, List.length_map _ _,
      rfl, rfl, rfl, rfl, rfl, rfl⟩

theorem scale8_small (c br : Nat) (hc : c < 256) (hbr : br < 257) :
    scale8 c br = (c * br) >>> 8 := by
  unfold scale8
  have h : c * br ≤ 255 * br := Nat.mul_le_mul_right br (by omega)
  rw [Nat.shiftRight_eq_div_pow, Nat.shiftRight_eq_div_pow]
  norm_num
  omega

/-- C11 (as the code has it): for every level in 0..254, every index
`i < numLEDs` and all bytes `r`, `g`, `b`, `setPixelColor` after
`setBrightness(level)` stores at each channel's colour-order offset the top 8
bits of the 16-bit product of the channel and the stored biased brightness
`level + 1`, i.e. `(channel × (level + 1)) >> 8`. -/
theorem scaled_store (s : Driver) (level i r g b : Nat)
    (hs : Sized s) (ho : Ordered s) (hl : level < 255) (hi : i < s.numLEDs)
    (hr : r < 256) (hg : g < 256) (hb : b < 256) :
    ∃ s1 s2 buf2, setBrightness s level = .ok s1 ∧ s1.brightness = level + 1 ∧
      setPixelColor s1 i r g b = .ok s2 ∧ s2.pixels = some buf2 ∧
      buf2[3 * i + s.rOffset]? = some ((r * (level + 1)) >>> 8) ∧
      buf2[3 * i + s.gOffset]? = some ((g * (level + 1)) >>> 8) ∧
      buf2[3 * i + s.bOffset]? = some ((b * (level + 1)) >>> 8) := by
  obtain ⟨buf, hp, hlen, hnb, hlt⟩ := hs.exists_buf
  obtain ⟨s1, buf1, hset, hp1, hlen1, hn1, _, hro, hgo, hbo, hbr1⟩ :=
    setBrightness_sized s buf level hp hlen
  have hbr : s1.brightness = level + 1 := by rw [hbr1]; omega
  have hi16 : i % 65536 = i := Nat.mod_eq_of_lt (by omega)
  have hp3 : (i * 3) % 65536 = i * 3 := Nat.mod_eq_of_lt (by omega)
  have hoff : s.rOffset ≤ 2 ∧ s.gOffset ≤ 2 ∧ s.bOffset ≤ 2 := by
    rcases ho with ⟨h1, h2, h3⟩ | ⟨h1, h2, h3⟩ | ⟨h1, h2, h3⟩ <;> omega
  have hpix : setPixelColor s1 i r g b =
      storePixel s1 i ((r * (level + 1)) >>> 8) ((g * (level + 1)) >>> 8)
        ((b * (level + 1)) >>> 8) := by
    unfold setPixelColor
    simp only [hi16, hn1, hi, if_true, Nat.mod_eq_of_lt hr, Nat.mod_eq_of_lt hg,
      Nat.mod_eq_of_lt hb]
    rw [if_pos (by rw [hbr]; omega), hbr, scale8_small r _ hr (by omega),
      scale8_small g _ hg (by omega), scale8_small b _ hb (by omega)]
  obtain ⟨g1, g2, g3, _⟩ := set3_get buf1 i s.rOffset s.gOffset s.bOffset
    ((r * (level + 1)) >>> 8) ((g * (level + 1)) >>> 8) ((b * (level + 1)) >>> 8) ho (by omega)
  refine ⟨s1, { s1 with
      pixels := some (((buf1.set (i * 3 + s.rOffset) ((r * (level + 1)) >>> 8)).set
        (i * 3 + s.gOffset) ((g * (level + 1)) >>> 8)).set (i * 3 + s.bOffset)
        ((b * (level + 1)) >>> 8)) },
    _, hset, hbr, ?_, rfl, ?_, ?_, ?_⟩
  · rw [hpix, storePixel_some s1 buf1 i _ _ _ hp1 (by omega) (by omega) (by omega)]
    simp only [hp3, hro, hgo, hbo]
  · rw [Nat.mul_comm 3 i]; exact g1
  · rw [Nat.mul_comm 3 i]; exact g2
  · rw [Nat.mul_comm 3 i]; exact g3

theorem scaled_store_witness :
    (Sized sampleLit ∧ Ordered sampleLit ∧ 127 < 255 ∧ 0 < sampleLit.numLEDs) ∧
      ∃ s1 s2 buf2, setBrightness sampleLit 127 = .ok s1 ∧ s1.brightness = 127 + 1 ∧
        setPixelColor s1 0 2 255 64 = .ok s2 ∧ s2.pixels = some buf2 ∧
        buf2[3 * 0 + sampleLit.rOffset]? = some ((2 * (127 + 1)) >>> 8) ∧
        buf2[3 * 0 + sampleLit.gOffset]? = some ((255 * (127 + 1)) >>> 8) ∧
        buf2[3 * 0 + sampleLit.bOffset]? = some ((64 * (127 + 1)) >>> 8) :=
  ⟨by decide, scaled_store sampleLit 127 0 2 255 64 (by decide) (by decide) (by decide)
    (by decide) (by decide) (by decide) (by decide)⟩

/-- C11 as stated fails: after `setBrightness(127)` the red channel 2 is stored
as 1, the high byte of `2 × 128`, while the high byte of the product with the
effective brightness, `2 × 127`, is 0. -/
theorem scaled_store_not_effective :
    ∃ s1 s2 buf2, setBrightness sampleDriver 127 = .ok s1 ∧
      (s1.brightness + 255) % 256 = 127 ∧
      setPixelColor s1 0 2 0 0 = .ok s2 ∧ s2.pixels = some buf2 ∧
      buf2[3 * 0 + s2.rOffset]? = some 1 ∧
      buf2[3 * 0 + s2.rOffset]? ≠ some ((2 * 127) >>> 8) :=
  ⟨{ sampleDriver with brightness := 128 },
    { sampleDriver with brightness := 128, pixels := some [0, 1, 0, 0, 0, 0] },
    [0, 1, 0, 0, 0, 0], by decide, by decide, by decide, by decide, by decide, by decide⟩

theorem setBrightness_changed (s : Driver) (buf : List Nat) (level : Nat)
    (hp : s.pixels = some buf) (hlen : buf.length = s.numBytes)
    (hne : (level % 256 + 1) % 256 ≠ s.brightness) :
    setBrightness s level = .ok { s with
      pixels := some (buf.map (fun c => (((c * brightnessScale (level % 256)
        ((level % 256 + 1) % 256) ((s.brightness + 255) % 256)) % 65536) >>> 8) % 256)),
      brightness := (level % 256 + 1) % 256 } := by
  have hloop : ∀ scale, rescaleLoop scale s.numBytes 0 (some buf) =
      .ok (some (buf.map (fun c => (((c * scale) % 65536) >>> 8) % 256))) := by
    intro scale; rw [← hlen]; exact rescaleLoop_map scale buf
  unfold setBrightness
  simp only [ne_eq, hne, not_false_eq_true, if_true, hp, hloop, bind, Except.bind, pure,
    Except.pure]

theorem first_scale (level : Nat) (hl : level < 255) :
    brightnessScale (level % 256) ((level % 256 + 1) % 256) ((0 + 255) % 256) = level + 1 := by
  have e1 : (0 + 255) % 256 = 255 := rfl
  have e2 : level % 256 = level := Nat.mod_eq_of_lt (by omega)
  have e3 : (level + 1) % 256 = level + 1 := Nat.mod_eq_of_lt (by omega)
  unfold brightnessScale
  rw [e1, e2, e3, if_neg (by decide), if_neg (by omega), Nat.shiftLeft_eq]
  omega

/-- C17: in every state reached from a successful construction (zeroed buffer,
stored brightness 0) by any sequence of `setPixelColor` (either overload) and
`setBrightness` calls, every stored byte is at most the effective brightness
`(stored - 1) mod 256`; hence for every level the product of a stored byte and
the scale `setBrightness` computes is below 65536 and its high byte below 256:
the 16-bit multiply does not wrap and the stored result is not truncated. -/
theorem rescale_never_overflows (NEO_GRB NEO_BRG e0 mask n p t : Nat) (ops : List Op)
    (s : Driver)
    (hrun : runOps ops (construct NEO_GRB NEO_BRG true 0 e0 mask n p t) = .ok s) :
    ∃ buf, s.pixels = some buf ∧ (∀ c ∈ buf, c ≤ (s.brightness + 255) % 256) ∧
      ∀ level, ∀ c ∈ buf,
        c * brightnessScale (level % 256) ((level % 256 + 1) % 256)
            ((s.brightness + 255) % 256) < 65536 ∧
        (c * brightnessScale (level % 256) ((level % 256 + 1) % 256)
            ((s.brightness + 255) % 256)) >>> 8 < 256 := by
  obtain ⟨k0, b0, r0⟩ := construct_kept NEO_GRB NEO_BRG e0 mask n p t
  obtain ⟨hk, hbd, _⟩ := runOps_kept ops _ s k0 b0 r0 hrun
  cases hp : s.pixels with
  | none => simp [Backed, hp] at hk
  | some buf =>
    simp only [Bounded, hp] at hbd
    refine ⟨buf, rfl, hbd, ?_⟩
    intro level c hc
    have h := rescale_product_lt c (level % 256) ((s.brightness + 255) % 256) (hbd c hc)
    refine ⟨h, ?_⟩
    rw [Nat.shiftRight_eq_div_pow]
    omega

theorem rescale_never_overflows_witness :
    runOps sampleOps (construct 1 4 true 0 0 1 2 6 1) =
        .ok { sampleDriver with pixels := some [20, 40, 1, 40, 40, 40], brightness := 41 } ∧
      ∃ buf, some [20, 40, 1, 40, 40, 40] = some buf ∧ (∀ c ∈ buf, c ≤ (41 + 255) % 256) ∧
        ∀ level, ∀ c ∈ buf,
          c * brightnessScale (level % 256) ((level % 256 + 1) % 256) ((41 + 255) % 256) < 65536 ∧
          (c * brightnessScale (level % 256) ((level % 256 + 1) % 256) ((41 + 255) % 256)) >>> 8
            < 256 :=
  ⟨by decide,
    rescale_never_overflows 1 4 0 1 2 6 1 sampleOps
      { sampleDriver with pixels := some [20, 40, 1, 40, 40, 40], brightness := 41 } (by decide)⟩

/-- C18: from a buffer at the default stored brightness 0, for every level in
0..255 and every index `i < numLEDs`, `setPixelColor(i, r, g, b)` followed by
`setBrightness(level)` ends in the same driver state (buffer and stored
brightness included) as `setBrightness(level)` followed by
`setPixelColor(i, r, g, b)`; the scale of this first rescale is `level + 1`. -/
theorem set_then_dim_commutes (s : Driver) (level i r g b : Nat)
    (hs : Sized s) (ho : Ordered s) (hbr : s.brightness = 0) (hl : level < 256)
    (hi : i < s.numLEDs) :
    (∃ sA sB sC, setPixelColor s i r g b = .ok sA ∧ setBrightness sA level = .ok sC ∧
      setBrightness s level = .ok sB ∧ setPixelColor sB i r g b = .ok sC) ∧
    (level < 255 → brightnessScale (level % 256) ((level % 256 + 1) % 256)
      ((s.brightness + 255) % 256) = level + 1) := by
  obtain ⟨buf, hp, hlen, hnb, hlt⟩ := hs.exists_buf
  have hi16 : i % 65536 = i := Nat.mod_eq_of_lt (by omega)
  have hp3 : (i * 3) % 65536 = i * 3 := Nat.mod_eq_of_lt (by omega)
  have hoff : s.rOffset ≤ 2 ∧ s.gOffset ≤ 2 ∧ s.bOffset ≤ 2 := by
    rcases ho with ⟨h1, h2, h3⟩ | ⟨h1, h2, h3⟩ | ⟨h1, h2, h3⟩ <;> omega
  have hA : setPixelColor s i r g b = .ok { s with
      pixels := some (((buf.set (i * 3 + s.rOffset) (r % 256)).set (i * 3 + s.gOffset)
        (g % 256)).set (i * 3 + s.bOffset) (b % 256)) } := by
    unfold setPixelColor
    simp only [hi16, hi, if_true]
    rw [if_neg (not_not_intro hbr),
      storePixel_some s buf i _ _ _ hp (by omega) (by omega) (by omega)]
    simp only [hp3]
  refine ⟨?_, fun h => by rw [hbr]; exact first_scale level h⟩
  by_cases h255 : level = 255
  · subst h255
    refine ⟨_, s, _, hA, setBrightness_same _ 255 (by simp [hbr]),
      setBrightness_same s 255 (by simp [hbr]), hA⟩
  · have hlt255 : level < 255 := by omega
    have hsc := first_scale level hlt255
    have hne : (level % 256 + 1) % 256 ≠ s.brightness := by rw [hbr]; omega
    have hnb1 : (level % 256 + 1) % 256 = level + 1 := by omega
    have hB := setBrightness_changed s buf level hp hlen hne
    have hAB := setBrightness_changed
      { s with pixels := some (((buf.set (i * 3 + s.rOffset) (r % 256)).set (i * 3 + s.gOffset)
        (g % 256)).set (i * 3 + s.bOffset) (b % 256)) }
      (((buf.set (i * 3 + s.rOffset) (r % 256)).set (i * 3 + s.gOffset)
        (g % 256)).set (i * 3 + s.bOffset) (b % 256)) level rfl
      (by simp only [List.length_set]; exact hlen) hne
    refine ⟨_, _, _, hA, hAB, hB, ?_⟩
    unfold setPixelColor
    simp only [hi16, hi, if_true]
    rw [if_pos (by simp only [hnb1]; omega),
      storePixel_some _ (buf.map _) i _ _ _ rfl (by simp; omega) (by simp; omega)
        (by simp; omega)]
    have hsc1 := hsc
    rw [hnb1] at hsc1
    simp only [hp3, hbr, hnb1, hsc1, List.map_set, scale8]

theorem set_then_dim_commutes_witness :
    (Sized sampleLit ∧ Ordered sampleLit ∧ sampleLit.brightness = 0 ∧ 127 < 256 ∧
      1 < sampleLit.numLEDs) ∧
      (∃ sA sB sC, setPixelColor sampleLit 1 200 100 50 = .ok sA ∧
        setBrightness sA 127 = .ok sC ∧ setBrightness sampleLit 127 = .ok sB ∧
        setPixelColor sB 1 200 100 50 = .ok sC) ∧
      (127 < 255 → brightnessScale (127 % 256) ((127 % 256 + 1) % 256)
        ((sampleLit.brightness + 255) % 256) = 127 + 1) :=
  ⟨by decide, set_then_dim_commutes sampleLit 127 1 200 100 50 (by decide) (by decide)
    (by decide) (by decide) (by decide)⟩

end NeoPixel
